import Mathlib

set_option maxHeartbeats 4000000
set_option maxRecDepth 10000

/-!
A shallow embedding of the `rust-base32` crate (alphabet construction,
base-32 encoding and decoding), together with theorems about it.

Modelling conventions, used consistently below:

* Rust `u8` values are `Nat` together with `< 256` hypotheses where needed;
  `usize` arithmetic that Rust checks (`checked_mul` / `checked_add`) is
  modelled with an explicit bound at `2 ^ 64 - 1` (a 64-bit platform).
  The `i32` / `u32` intermediate values of the codec loops never exceed
  `2 ^ 15` for byte inputs, so plain `Nat` arithmetic is exact for them.
* A Rust panic (out-of-bounds index, `expect` failure, ...) is modelled as
  the `none` case of an `Option` result.
* the Rust `encode_table[(x & 0x1F) as usize]` indexes a `[u8; 32]` array with
  an index masked to `< 32`, which the Rust types make infallible; it is
  modelled with `List.getD _ _ 0`.  By contrast `decode_bytes` is a
  `[u8; u8::MAX as usize]` array (255 entries) indexed by an arbitrary input
  byte, which can go out of bounds; it is modelled with `List.get?` so that
  the possible panic is visible as `none`.
-/

/-- Rust `pub const ALPHABET_SIZE: usize = 32;`. -/
def ALPHABET_SIZE : Nat := 32

/-- Size of the `decode_bytes` array: `u8::MAX as usize = 255` (not 256). -/
def DECODE_BYTES_SIZE : Nat := 255

/-- Largest value of the platform size type (64-bit `usize`). -/
def USIZE_MAX : Nat := 2 ^ 64 - 1

/-- Rust `usize::checked_mul`. -/
def checked_mul (a b : Nat) : Option Nat :=
  if a * b ≤ USIZE_MAX then some (a * b) else none

/-- Rust `usize::checked_add`. -/
def checked_add (a b : Nat) : Option Nat :=
  if a + b ≤ USIZE_MAX then some (a + b) else none

/-- Rust `enum EncodeOrder`, with variants OrderInversed and OrderNormal. -/
inductive EncodeOrder where
  | OrderInversed
  | OrderNormal
deriving DecidableEq, Repr

/-- Rust `struct Alphabet` from `alphabet.rs`.  `encode_symbols` models the
`[u8; ALPHABET_SIZE]` array (32 entries) and `decode_bytes` the
`[u8; u8::MAX as usize]` array (255 entries). -/
structure Alphabet where
  encode_symbols : List Nat
  decode_bytes : List Nat
  encode_order : EncodeOrder
deriving DecidableEq, Repr

/-- Rust `enum ParseAlphabetError`. -/
inductive ParseAlphabetError where
  | InvalidLength
  | DuplicatedByte (b : Nat)
  | UnprintableByte (b : Nat)
deriving DecidableEq, Repr

/-- Rust `enum DecodeError` from `decode.rs`. -/
inductive DecodeError where
  | InvalidByte (index : Nat) (byte : Nat)
  | InvalidLength (sz : Nat)
deriving DecidableEq, Repr

/-- Bytes of an ASCII string literal, as natural numbers. -/
def strBytes (s : String) : List Nat := s.data.map Char.toNat

/-- Model of Rust `Alphabet::from_str_unsafe`.  The Rust function is only ever called with
known-valid 32-byte strings (`source_bytes[index]` would panic on shorter
input, hence `getD _ _ 0` never takes its default for actual call sites), and
a `&str` can never contain the byte 255, so `decode_bytes[sym] = index` is
always in bounds there; `List.set` drops the write in that unreachable case. -/
def Alphabet.from_str_unchecked (s : List Nat) (encode_order : EncodeOrder) : Alphabet :=
  { encode_symbols := (List.range ALPHABET_SIZE).map (fun i => s.getD i 0)
    decode_bytes :=
      (List.range ALPHABET_SIZE).foldl
        (fun db i => db.set (s.getD i 0) i)
        (List.replicate DECODE_BYTES_SIZE 255)
    encode_order := encode_order }

/-- Size of the `dups` scratch array in `from_str_order`:
`(LAST_PRINTABLE - FIRST_PRINTABLE) as usize = 126 - 32 = 94`. -/
def DUPS_SIZE : Nat := 94

/-- The validation loop of `Alphabet::from_str_order`: per byte, the
printability test, then the duplicate test via the `dups` array.  Reading
`dups[byte - 32]` is modelled with `List.get?`; the `none` branch is the
out-of-bounds panic Rust hits when `byte - 32 ≥ DUPS_SIZE` (i.e. byte 126). -/
def fromStrOrderLoop : List Nat → List Bool → Option (Except ParseAlphabetError Unit)
  | [], _ => some (.ok ())
  | b :: bs, dups =>
    if ¬(32 ≤ b ∧ b ≤ 126) then
      some (.error (.UnprintableByte b))
    else
      match dups.get? (b - 32) with
      | none => none
      | some true => some (.error (.DuplicatedByte b))
      | some false => fromStrOrderLoop bs (dups.set (b - 32) true)

/-- Model of `Alphabet::from_str_order`; `none` models a panic. -/
def Alphabet.from_str_order (s : List Nat) (encode_order : EncodeOrder) :
    Option (Except ParseAlphabetError Alphabet) :=
  if s.length ≠ ALPHABET_SIZE then
    some (.error .InvalidLength)
  else
    match fromStrOrderLoop s (List.replicate DUPS_SIZE false) with
    | none => none
    | some (.error e) => some (.error e)
    | some (.ok _) => some (.ok (Alphabet.from_str_unchecked s encode_order))

/-- Model of `Alphabet::from_str`. -/
def Alphabet.from_str (s : List Nat) : Option (Except ParseAlphabetError Alphabet) :=
  Alphabet.from_str_order s .OrderNormal

/-- Rust `pub const ZBASE32`. -/
def ZBASE32 : Alphabet :=
  Alphabet.from_str_unchecked (strBytes "ybndrfg8ejkmcpqxot1uwisza345h769") .OrderInversed

/-- Rust `pub const BECH32`. -/
def BECH32 : Alphabet :=
  Alphabet.from_str_unchecked (strBytes "qpzry9x8gf2tvdw0s3jn54khce6mua7l") .OrderNormal

/-- Rust `pub const RFC`. -/
def RFC : Alphabet :=
  Alphabet.from_str_unchecked (strBytes "ABCDEFGHIJKLMNOPQRSTUVWXYZ234567") .OrderNormal

/-- Model of `encoded_len` from `encode.rs`:
`min_bytes.checked_mul(8).and_then(|c| c.checked_add(rem * 2 + 1))`. -/
def encoded_len (bytes_len : Nat) : Option Nat :=
  let min_bytes := bytes_len / 5
  let rem := bytes_len % 5
  (checked_mul min_bytes 8).bind (fun c => checked_add c (rem * 2 + 1))

/-- Model of `decoded_len` from `decode.rs`:
`full_chunks.checked_mul(5).and_then(|c| c.checked_add(remainder))`. -/
def decoded_len (bytes_len : Nat) : Option Nat :=
  let full_chunks := bytes_len / 8
  let remainder := bytes_len % 8
  (checked_mul full_chunks 5).bind (fun c => checked_add c remainder)

/-- A bounds-checked write `buf[o] = v`; `none` is the Rust index panic. -/
def writeBuf (buf : List Nat) (o v : Nat) : Option (List Nat) :=
  if o < buf.length then some (buf.set o v) else none

/-- Sequential writes `buf[o] = v0; buf[o+1] = v1; ...` (unchecked form,
used only to state what the checked writes produce). -/
def writeAll (buf : List Nat) (o : Nat) : List Nat → List Nat
  | [] => buf
  | v :: vs => writeAll (buf.set o v) (o + 1) vs

/-- Rust `Vec::resize(n, 0)`: truncate or extend with zeros. -/
def listResize (l : List Nat) (n : Nat) : List Nat :=
  if n ≤ l.length then l.take n else l ++ List.replicate (n - l.length) 0

/-! ## Pure digit-level codec functions

The encoder loop of `encode_alphabet_slice` writes
`encode_table[digit]` for a sequence of 5-bit digits that depends only on the
input bytes, the position `i % 5` and the carried `remain`; these functions
compute exactly that digit sequence (including the final `remain` flush).
`remain = -1` (the Rust "no pending bits" sentinel, tested via `remain >= 0`)
is modelled as `none`; arms at phase ≠ 0 only ever run with `remain`
nonnegative, so `Option.getD _ 0` never takes its default on real traces. -/

/-- Digit stream of the `EncodeOrder::OrderInversed` branch of
`encode_alphabet_slice`; `ph` is `i % 5`. -/
def encInvGo : List Nat → Nat → Option Nat → List Nat
  | [], _, rem =>
    match rem with
    | some r => [r &&& 31]
    | none => []
  | b :: bs, ph, rem =>
    if ph = 0 then
      (b &&& 31) :: encInvGo bs 1 (some (b >>> 5))
    else if ph = 1 then
      let x := rem.getD 0 ||| (b <<< 3)
      (x &&& 31) :: ((x >>> 5) &&& 31) :: encInvGo bs 2 (some (x >>> 10))
    else if ph = 2 then
      let x := rem.getD 0 ||| (b <<< 1)
      (x &&& 31) :: encInvGo bs 3 (some (x >>> 5))
    else if ph = 3 then
      let x := rem.getD 0 ||| (b <<< 4)
      (x &&& 31) :: ((x >>> 5) &&& 31) :: encInvGo bs 4 (some ((x >>> 10) &&& 3))
    else
      let x := rem.getD 0 ||| (b <<< 2)
      (x &&& 31) :: ((x >>> 5) &&& 31) :: encInvGo bs 0 none

/-- Digit stream of the `EncodeOrder::OrderNormal` branch of
`encode_alphabet_slice`; `ph` is `i % 5`. -/
def encNormGo : List Nat → Nat → Option Nat → List Nat
  | [], _, rem =>
    match rem with
    | some r => [r &&& 31]
    | none => []
  | b :: bs, ph, rem =>
    if ph = 0 then
      ((b >>> 3) &&& 31) :: encNormGo bs 1 (some ((b &&& 7) <<< 2))
    else if ph = 1 then
      let x := (rem.getD 0 <<< 6) ||| b
      ((x >>> 6) &&& 31) :: ((x >>> 1) &&& 31) :: encNormGo bs 2 (some ((x &&& 1) <<< 4))
    else if ph = 2 then
      let x := (rem.getD 0 <<< 4) ||| b
      ((x >>> 4) &&& 31) :: encNormGo bs 3 (some ((x &&& 15) <<< 1))
    else if ph = 3 then
      let x := (rem.getD 0 <<< 7) ||| b
      ((x >>> 7) &&& 31) :: ((x >>> 2) &&& 31) :: encNormGo bs 4 (some ((x &&& 3) <<< 3))
    else
      let x := (rem.getD 0 <<< 5) ||| b
      ((x >>> 5) &&& 31) :: (x &&& 31) :: encNormGo bs 0 none

/-- Digit stream produced by the encoder for a given bit order. -/
def encDigits (order : EncodeOrder) (bs : List Nat) : List Nat :=
  match order with
  | .OrderInversed => encInvGo bs 0 none
  | .OrderNormal => encNormGo bs 0 none

/-- Byte stream of the `OrderInversed` branch of `decode_alphabet_vec`, at
digit level (symbols already translated through `decode_bytes`): emit the low
8 accumulator bits whenever 8 bits are pending at the top of the loop, then
take in 5 more bits; after the loop flush the low 8 bits of any pending rest. -/
def decInvGo : List Nat → Nat → Nat → List Nat
  | [], p, acc => if 0 < p then [acc &&& 255] else []
  | d :: ds, p, acc =>
    if 8 ≤ p then
      (acc &&& 255) :: decInvGo ds ((p - 8) + 5) ((d <<< (p - 8)) ||| (acc >>> 8))
    else
      decInvGo ds (p + 5) ((d <<< p) ||| acc)

/-- Byte stream of the `OrderNormal` branch of `decode_alphabet_vec`, at
digit level: shift 5 bits in, emit the top 8 pending bits when available,
mask the emitted bits away; leftover bits at the end are dropped. -/
def decNormGo : List Nat → Nat → Nat → List Nat
  | [], _, _ => []
  | d :: ds, p, acc =>
    let acc1 := (acc <<< 5) ||| d
    let p1 := p + 5
    if 8 ≤ p1 then
      ((acc1 >>> (p1 - 8)) &&& 255) :: decNormGo ds (p1 - 8) (acc1 &&& ((1 <<< (p1 - 8)) - 1))
    else
      decNormGo ds p1 acc1

/-- Digit-level decode for a given bit order, from the initial state. -/
def decDigits (order : EncodeOrder) (ds : List Nat) : List Nat :=
  match order with
  | .OrderInversed => decInvGo ds 0 0
  | .OrderNormal => decNormGo ds 0 0

/-! ## The codec functions themselves -/

/-- The `OrderInversed` loop of `encode_alphabet_slice`, with checked writes into
`buf` at cursor `o`; `t` is `encode_symbols`. -/
def encSliceInvGo (t : List Nat) : List Nat → Nat → Option Nat → List Nat → Nat →
    Option (List Nat × Nat)
  | [], _, rem, buf, o =>
    match rem with
    | some r =>
      match writeBuf buf o (t.getD (r &&& 31) 0) with
      | some buf1 => some (buf1, o + 1)
      | none => none
    | none => some (buf, o)
  | b :: bs, ph, rem, buf, o =>
    if ph = 0 then
      match writeBuf buf o (t.getD (b &&& 31) 0) with
      | some buf1 => encSliceInvGo t bs 1 (some (b >>> 5)) buf1 (o + 1)
      | none => none
    else if ph = 1 then
      let x := rem.getD 0 ||| (b <<< 3)
      match writeBuf buf o (t.getD (x &&& 31) 0) with
      | some buf1 =>
        match writeBuf buf1 (o + 1) (t.getD ((x >>> 5) &&& 31) 0) with
        | some buf2 => encSliceInvGo t bs 2 (some (x >>> 10)) buf2 (o + 2)
        | none => none
      | none => none
    else if ph = 2 then
      let x := rem.getD 0 ||| (b <<< 1)
      match writeBuf buf o (t.getD (x &&& 31) 0) with
      | some buf1 => encSliceInvGo t bs 3 (some (x >>> 5)) buf1 (o + 1)
      | none => none
    else if ph = 3 then
      let x := rem.getD 0 ||| (b <<< 4)
      match writeBuf buf o (t.getD (x &&& 31) 0) with
      | some buf1 =>
        match writeBuf buf1 (o + 1) (t.getD ((x >>> 5) &&& 31) 0) with
        | some buf2 => encSliceInvGo t bs 4 (some ((x >>> 10) &&& 3)) buf2 (o + 2)
        | none => none
      | none => none
    else
      let x := rem.getD 0 ||| (b <<< 2)
      match writeBuf buf o (t.getD (x &&& 31) 0) with
      | some buf1 =>
        match writeBuf buf1 (o + 1) (t.getD ((x >>> 5) &&& 31) 0) with
        | some buf2 => encSliceInvGo t bs 0 none buf2 (o + 2)
        | none => none
      | none => none

/-- The `OrderNormal` loop of `encode_alphabet_slice`. -/
def encSliceNormGo (t : List Nat) : List Nat → Nat → Option Nat → List Nat → Nat →
    Option (List Nat × Nat)
  | [], _, rem, buf, o =>
    match rem with
    | some r =>
      match writeBuf buf o (t.getD (r &&& 31) 0) with
      | some buf1 => some (buf1, o + 1)
      | none => none
    | none => some (buf, o)
  | b :: bs, ph, rem, buf, o =>
    if ph = 0 then
      match writeBuf buf o (t.getD ((b >>> 3) &&& 31) 0) with
      | some buf1 => encSliceNormGo t bs 1 (some ((b &&& 7) <<< 2)) buf1 (o + 1)
      | none => none
    else if ph = 1 then
      let x := (rem.getD 0 <<< 6) ||| b
      match writeBuf buf o (t.getD ((x >>> 6) &&& 31) 0) with
      | some buf1 =>
        match writeBuf buf1 (o + 1) (t.getD ((x >>> 1) &&& 31) 0) with
        | some buf2 => encSliceNormGo t bs 2 (some ((x &&& 1) <<< 4)) buf2 (o + 2)
        | none => none
      | none => none
    else if ph = 2 then
      let x := (rem.getD 0 <<< 4) ||| b
      match writeBuf buf o (t.getD ((x >>> 4) &&& 31) 0) with
      | some buf1 => encSliceNormGo t bs 3 (some ((x &&& 15) <<< 1)) buf1 (o + 1)
      | none => none
    else if ph = 3 then
      let x := (rem.getD 0 <<< 7) ||| b
      match writeBuf buf o (t.getD ((x >>> 7) &&& 31) 0) with
      | some buf1 =>
        match writeBuf buf1 (o + 1) (t.getD ((x >>> 2) &&& 31) 0) with
        | some buf2 => encSliceNormGo t bs 4 (some ((x &&& 3) <<< 3)) buf2 (o + 2)
        | none => none
      | none => none
    else
      let x := (rem.getD 0 <<< 5) ||| b
      match writeBuf buf o (t.getD ((x >>> 5) &&& 31) 0) with
      | some buf1 =>
        match writeBuf buf1 (o + 1) (t.getD (x &&& 31) 0) with
        | some buf2 => encSliceNormGo t bs 0 none buf2 (o + 2)
        | none => none
      | none => none

/-- Model of `encode_alphabet_slice`: dispatch on the bit order outside the loop,
starting at `remain = -1` (`none`), `o = 0`.  Returns the final buffer and
the count of symbols written; `none` models an out-of-bounds write panic. -/
def encode_alphabet_slice (input buf : List Nat) (a : Alphabet) :
    Option (List Nat × Nat) :=
  if a.encode_order = .OrderInversed then
    encSliceInvGo a.encode_symbols input 0 none buf 0
  else
    encSliceNormGo a.encode_symbols input 0 none buf 0

/-- Model of `encode_alphabet`: size the buffer by `encoded_len` (panic on `None`),
run the slice encoder, and keep the first `enc_len` bytes.  Rust wraps them
in `String::from_utf8(..).expect(..)`; validity is modelled by the ASCII
check `b < 128`, exact whenever every alphabet symbol is below 128 (which
validation guarantees for every constructible alphabet). -/
def encode_alphabet (input : List Nat) (a : Alphabet) : Option (List Nat) :=
  match encoded_len input.length with
  | none => none
  | some sz =>
    match encode_alphabet_slice input (List.replicate sz 0) a with
    | none => none
    | some (buf, enc_len) =>
      let out := buf.take enc_len
      if out.all (fun b => b < 128) then some out else none

/-- Model of `encode`: the default (zbase32) alphabet. -/
def encode (input : List Nat) : Option (List Nat) :=
  encode_alphabet input ZBASE32

/-- The `OrderInversed` loop of `decode_alphabet_vec`: at the top of each
iteration emit a byte if 8 bits are pending, then look the symbol up in
`decode_bytes` (a 255-entry table: `none` from `List.get?` is the Rust
index panic on byte 255), fail on the 255 sentinel, else take in 5 bits.
After the loop, flush the low 8 bits of any pending rest. -/
def decSliceInvGo (tbl : List Nat) : List Nat → Nat → Nat → Nat → List Nat → Nat →
    Option (Except DecodeError Unit × List Nat × Nat)
  | [], _, p, acc, buf, o =>
    if 0 < p then
      match writeBuf buf o (acc &&& 255) with
      | some buf1 => some (.ok (), buf1, o + 1)
      | none => none
    else
      some (.ok (), buf, o)
  | c :: cs, i, p, acc, buf, o =>
    if 8 ≤ p then
      match writeBuf buf o (acc &&& 255) with
      | some buf1 =>
        match tbl.get? c with
        | none => none
        | some d =>
          if d = 255 then
            some (.error (.InvalidByte i c), buf1, o + 1)
          else
            decSliceInvGo tbl cs (i + 1) ((p - 8) + 5)
              ((d <<< (p - 8)) ||| (acc >>> 8)) buf1 (o + 1)
      | none => none
    else
      match tbl.get? c with
      | none => none
      | some d =>
        if d = 255 then
          some (.error (.InvalidByte i c), buf, o)
        else
          decSliceInvGo tbl cs (i + 1) (p + 5) ((d <<< p) ||| acc) buf o

/-- The `OrderNormal` loop of `decode_alphabet_vec`: look the symbol up, fail on
the sentinel, shift 5 bits in, and emit the top 8 pending bits when
available; leftover bits at the end are dropped. -/
def decSliceNormGo (tbl : List Nat) : List Nat → Nat → Nat → Nat → List Nat → Nat →
    Option (Except DecodeError Unit × List Nat × Nat)
  | [], _, _, _, buf, o => some (.ok (), buf, o)
  | c :: cs, i, p, acc, buf, o =>
    match tbl.get? c with
    | none => none
    | some d =>
      if d = 255 then
        some (.error (.InvalidByte i c), buf, o)
      else
        let acc1 := (acc <<< 5) ||| d
        let p1 := p + 5
        if 8 ≤ p1 then
          match writeBuf buf o ((acc1 >>> (p1 - 8)) &&& 255) with
          | some buf1 =>
            decSliceNormGo tbl cs (i + 1) (p1 - 8)
              (acc1 &&& ((1 <<< (p1 - 8)) - 1)) buf1 (o + 1)
          | none => none
        else
          decSliceNormGo tbl cs (i + 1) p1 acc1 buf o

/-- Model of `decode_alphabet_vec`: resize the caller buffer to the `decoded_len`
estimate (panicking on `None`, modelled by `none`), run the order-specific
loop, and on success shrink the buffer to the bytes written.  On an
`InvalidByte` error the function returns early: the buffer keeps its
resized, partially overwritten contents. -/
def decode_alphabet_vec (input buffer : List Nat) (a : Alphabet) :
    Option (Except DecodeError Unit × List Nat) :=
  match decoded_len input.length with
  | none => none
  | some estimate =>
    let buf0 := listResize buffer estimate
    match
      (if a.encode_order = .OrderInversed then
        decSliceInvGo a.decode_bytes input 0 0 0 buf0 0
      else
        decSliceNormGo a.decode_bytes input 0 0 0 buf0 0) with
    | none => none
    | some (.error e, buf1, _) => some (.error e, buf1)
    | some (.ok _, buf1, o) => some (.ok (), listResize buf1 o)

/-- Model of `decode_alphabet`: start from an empty vector (Rust only reserves
capacity, the length is 0) and return it on success. -/
def decode_alphabet (input : List Nat) (a : Alphabet) :
    Option (Except DecodeError (List Nat)) :=
  match decoded_len input.length with
  | none => none
  | some _ =>
    match decode_alphabet_vec input [] a with
    | none => none
    | some (.error e, _) => some (.error e)
    | some (.ok _, buf) => some (.ok buf)

/-- Model of `decode`: the default (zbase32) alphabet. -/
def decode (input : List Nat) : Option (Except DecodeError (List Nat)) :=
  decode_alphabet input ZBASE32

/-- Number of bytes `decInvGo` emits, as a function of the symbol count and
the pending-bit counter only. -/
def dlenInv : Nat → Nat → Nat
  | 0, p => if 0 < p then 1 else 0
  | n + 1, p => if 8 ≤ p then 1 + dlenInv n ((p - 8) + 5) else dlenInv n (p + 5)

/-- Number of bytes `decNormGo` emits, as a function of the symbol count and
the pending-bit counter only. -/
def dlenNorm : Nat → Nat → Nat
  | 0, _ => 0
  | n + 1, p => if 8 ≤ p + 5 then 1 + dlenNorm n (p + 5 - 8) else dlenNorm n (p + 5)

example : encode (strBytes "hello") = some (strBytes "em3ags7p") := by decide
example : decode (strBytes "em3ags7p") = some (.ok (strBytes "hello")) := by rfl

/-! ## Arithmetic helper lemmas -/

theorem lor_eq_add (A b p : Nat) (hA : A % 2 ^ p = 0) (hb : b < 2 ^ p) :
    A ||| b = A + b := by
  have h2 : 2 ^ p * (A / 2 ^ p) = A := Nat.mul_div_cancel' (Nat.dvd_of_mod_eq_zero hA)
  calc A ||| b = 2 ^ p * (A / 2 ^ p) ||| b := by rw [h2]
    _ = 2 ^ p * (A / 2 ^ p) + b := (Nat.mul_add_lt_is_or hb _).symm
    _ = A + b := by rw [h2]

theorem lor_eq_add_r (A b p : Nat) (hA : A % 2 ^ p = 0) (hb : b < 2 ^ p) :
    b ||| A = A + b := by
  rw [Nat.lor_comm]; exact lor_eq_add A b p hA hb

theorem and1 (x : Nat) : x &&& 1 = x % 2 := Nat.and_one_is_mod x

theorem and3 (x : Nat) : x &&& 3 = x % 4 := by
  have h := Nat.and_pow_two_sub_one_eq_mod x 2; norm_num at h; exact h

theorem and7 (x : Nat) : x &&& 7 = x % 8 := by
  have h := Nat.and_pow_two_sub_one_eq_mod x 3; norm_num at h; exact h

theorem and15 (x : Nat) : x &&& 15 = x % 16 := by
  have h := Nat.and_pow_two_sub_one_eq_mod x 4; norm_num at h; exact h

theorem and31 (x : Nat) : x &&& 31 = x % 32 := by
  have h := Nat.and_pow_two_sub_one_eq_mod x 5; norm_num at h; exact h

theorem and255 (x : Nat) : x &&& 255 = x % 256 := by
  have h := Nat.and_pow_two_sub_one_eq_mod x 8; norm_num at h; exact h

theorem shl1 (x : Nat) : x <<< 1 = x * 2 := by rw [Nat.shiftLeft_eq]
theorem shl2 (x : Nat) : x <<< 2 = x * 4 := by rw [Nat.shiftLeft_eq]
theorem shl3 (x : Nat) : x <<< 3 = x * 8 := by rw [Nat.shiftLeft_eq]
theorem shl4 (x : Nat) : x <<< 4 = x * 16 := by rw [Nat.shiftLeft_eq]
theorem shl5 (x : Nat) : x <<< 5 = x * 32 := by rw [Nat.shiftLeft_eq]
theorem shl6 (x : Nat) : x <<< 6 = x * 64 := by rw [Nat.shiftLeft_eq]
theorem shl7 (x : Nat) : x <<< 7 = x * 128 := by rw [Nat.shiftLeft_eq]
theorem shl8 (x : Nat) : x <<< 8 = x * 256 := by rw [Nat.shiftLeft_eq]

theorem shr1 (x : Nat) : x >>> 1 = x / 2 := by rw [Nat.shiftRight_eq_div_pow]
theorem shr2 (x : Nat) : x >>> 2 = x / 4 := by rw [Nat.shiftRight_eq_div_pow]
theorem shr3 (x : Nat) : x >>> 3 = x / 8 := by rw [Nat.shiftRight_eq_div_pow]
theorem shr4 (x : Nat) : x >>> 4 = x / 16 := by rw [Nat.shiftRight_eq_div_pow]
theorem shr5 (x : Nat) : x >>> 5 = x / 32 := by rw [Nat.shiftRight_eq_div_pow]
theorem shr6 (x : Nat) : x >>> 6 = x / 64 := by rw [Nat.shiftRight_eq_div_pow]
theorem shr7 (x : Nat) : x >>> 7 = x / 128 := by rw [Nat.shiftRight_eq_div_pow]
theorem shr8 (x : Nat) : x >>> 8 = x / 256 := by rw [Nat.shiftRight_eq_div_pow]
theorem shr10 (x : Nat) : x >>> 10 = x / 1024 := by rw [Nat.shiftRight_eq_div_pow]

/-! ## Buffer write lemmas -/

theorem set_splice (v : Nat) : ∀ (buf : List Nat) (o : Nat), o < buf.length →
    buf.set o v = buf.take o ++ v :: buf.drop (o + 1)
  | b :: bs, 0, _ => by simp
  | b :: bs, o + 1, h => by
    simp only [List.set_cons_succ, List.take_succ_cons, List.drop_succ_cons,
      List.cons_append]
    rw [set_splice v bs o (by simpa using Nat.lt_of_succ_lt_succ h)]

theorem writeAll_eq : ∀ (ds buf : List Nat) (o : Nat), o + ds.length ≤ buf.length →
    writeAll buf o ds = buf.take o ++ ds ++ buf.drop (o + ds.length)
  | [], buf, o, _ => by simp [writeAll]
  | v :: vs, buf, o, h => by
    have ho : o < buf.length := by
      simp only [List.length_cons] at h; omega
    rw [writeAll, writeAll_eq vs (buf.set o v) (o + 1)
      (by simp only [List.length_cons] at h; simp only [List.length_set]; omega)]
    have htake : (buf.set o v).take (o + 1) = buf.take o ++ [v] := by
      rw [List.set_take]
      rw [set_splice v (buf.take (o + 1)) o (by simp only [List.length_take]; omega)]
      rw [List.take_take]
      have h1 : min o (o + 1) = o := by omega
      rw [h1, List.drop_eq_nil_of_le (by simp only [List.length_take]; omega)]
    have hdrop : (buf.set o v).drop (o + 1 + vs.length) = buf.drop (o + 1 + vs.length) := by
      rw [List.drop_set]
      rw [if_pos (by omega)]
    rw [htake, hdrop]
    have h2 : o + (v :: vs).length = o + 1 + vs.length := by
      simp only [List.length_cons]; omega
    rw [h2]
    simp

theorem take_writeAll (ds buf : List Nat) (h : ds.length ≤ buf.length) :
    (writeAll buf 0 ds).take ds.length = ds := by
  rw [writeAll_eq ds buf 0 (by omega)]
  simp [List.take_append_eq_append_take, List.take_of_length_le (Nat.le_refl _)]

theorem writeAll_length (ds : List Nat) : ∀ (buf : List Nat) (o : Nat),
    (writeAll buf o ds).length = buf.length := by
  induction ds with
  | nil => intro buf o; rfl
  | cons v vs ih => intro buf o; rw [writeAll, ih]; simp

/-! ## Encoder: slice/digit correspondence -/

theorem and31_lt (x : Nat) : x &&& 31 < 32 := by
  rw [and31]; omega

theorem encInvGo_lt32 : ∀ (bs : List Nat) (ph : Nat) (rem : Option Nat),
    ∀ d ∈ encInvGo bs ph rem, d < 32
  | [], _, rem => by
    match rem with
    | some r => simp [encInvGo, and31_lt]
    | none => simp [encInvGo]
  | b :: bs, ph, rem => by
    intro d hd
    rw [encInvGo] at hd
    by_cases hp0 : ph = 0
    · simp only [hp0, if_pos] at hd
      rcases List.mem_cons.mp hd with h | h
      · subst h; exact and31_lt _
      · exact encInvGo_lt32 bs 1 _ d h
    · by_cases hp1 : ph = 1
      · simp only [hp0, hp1, if_neg, if_pos, reduceIte] at hd
        rcases List.mem_cons.mp hd with h | h
        · subst h; exact and31_lt _
        · rcases List.mem_cons.mp h with h2 | h2
          · subst h2; exact and31_lt _
          · exact encInvGo_lt32 bs 2 _ d h2
      · by_cases hp2 : ph = 2
        · simp only [hp0, hp1, hp2, reduceIte] at hd
          rcases List.mem_cons.mp hd with h | h
          · subst h; exact and31_lt _
          · exact encInvGo_lt32 bs 3 _ d h
        · by_cases hp3 : ph = 3
          · simp only [hp0, hp1, hp2, hp3, reduceIte] at hd
            rcases List.mem_cons.mp hd with h | h
            · subst h; exact and31_lt _
            · rcases List.mem_cons.mp h with h2 | h2
              · subst h2; exact and31_lt _
              · exact encInvGo_lt32 bs 4 _ d h2
          · simp only [hp0, hp1, hp2, hp3, reduceIte] at hd
            rcases List.mem_cons.mp hd with h | h
            · subst h; exact and31_lt _
            · rcases List.mem_cons.mp h with h2 | h2
              · subst h2; exact and31_lt _
              · exact encInvGo_lt32 bs 0 none d h2

theorem writeBuf_some (buf : List Nat) (o v : Nat) (h : o < buf.length) :
    writeBuf buf o v = some (buf.set o v) := by
  simp [writeBuf, h]

theorem eqFalse_1_0 : ((1 : Nat) = 0) = False := by decide
theorem eqFalse_2_0 : ((2 : Nat) = 0) = False := by decide
theorem eqFalse_2_1 : ((2 : Nat) = 1) = False := by decide
theorem eqFalse_3_0 : ((3 : Nat) = 0) = False := by decide
theorem eqFalse_3_1 : ((3 : Nat) = 1) = False := by decide
theorem eqFalse_3_2 : ((3 : Nat) = 2) = False := by decide

theorem encSliceInvGo_eq (t : List Nat) : ∀ (bs : List Nat) (ph : Nat) (rem : Option Nat)
    (buf : List Nat) (o : Nat), o + (encInvGo bs ph rem).length ≤ buf.length →
    encSliceInvGo t bs ph rem buf o =
      some (writeAll buf o ((encInvGo bs ph rem).map (fun d => t.getD d 0)),
            o + (encInvGo bs ph rem).length)
  | [], ph, none, buf, o, h => by
    simp [encSliceInvGo, encInvGo, writeAll]
  | [], ph, some r, buf, o, h => by
    simp only [encInvGo, List.length_cons, List.length_nil] at h
    simp only [encSliceInvGo, encInvGo, writeBuf, if_pos (show o < buf.length by omega)]
    simp [writeAll]
  | b :: bs, ph, rem, buf, o, h => by
    rw [encInvGo] at h
    by_cases hp0 : ph = 0
    · subst hp0
      simp only [reduceIte, List.length_cons] at h
      have ho1 : (o < buf.length) = True := eq_true (by omega)
      rw [encSliceInvGo, encInvGo]
      simp only [reduceIte, List.map_cons, List.length_cons, writeBuf, List.length_set,
        ho1, if_true]
      rw [encSliceInvGo_eq t bs 1 _ _ (o + 1) (by simp only [List.length_set]; omega)]
      simp only [writeAll]
      congr 2
      omega
    · by_cases hp1 : ph = 1
      · subst hp1
        simp only [eqFalse_1_0, reduceIte, List.length_cons] at h
        have ho1 : (o < buf.length) = True := eq_true (by omega)
        have ho2 : (o + 1 < buf.length) = True := eq_true (by omega)
        rw [encSliceInvGo, encInvGo]
        simp only [eqFalse_1_0, reduceIte, List.map_cons, List.length_cons, writeBuf,
          List.length_set, ho1, ho2, if_true]
        rw [encSliceInvGo_eq t bs 2 _ _ (o + 2)
          (by simp only [List.length_set]; omega)]
        simp only [writeAll]
        congr 2
        omega
      · by_cases hp2 : ph = 2
        · subst hp2
          simp only [eqFalse_2_0, eqFalse_2_1, reduceIte, List.length_cons] at h
          have ho1 : (o < buf.length) = True := eq_true (by omega)
          rw [encSliceInvGo, encInvGo]
          simp only [eqFalse_2_0, eqFalse_2_1, reduceIte, List.map_cons, List.length_cons,
            writeBuf, List.length_set, ho1, if_true]
          rw [encSliceInvGo_eq t bs 3 _ _ (o + 1) (by simp only [List.length_set]; omega)]
          simp only [writeAll]
          congr 2
          omega
        · by_cases hp3 : ph = 3
          · subst hp3
            simp only [eqFalse_3_0, eqFalse_3_1, eqFalse_3_2, reduceIte,
              List.length_cons] at h
            have ho1 : (o < buf.length) = True := eq_true (by omega)
            have ho2 : (o + 1 < buf.length) = True := eq_true (by omega)
            rw [encSliceInvGo, encInvGo]
            simp only [eqFalse_3_0, eqFalse_3_1, eqFalse_3_2, reduceIte, List.map_cons,
              List.length_cons, writeBuf, List.length_set, ho1, ho2, if_true]
            rw [encSliceInvGo_eq t bs 4 _ _ (o + 2)
              (by simp only [List.length_set]; omega)]
            simp only [writeAll]
            congr 2
            omega
          · simp only [hp0, hp1, hp2, hp3, reduceIte, List.length_cons] at h
            have ho1 : (o < buf.length) = True := eq_true (by omega)
            have ho2 : (o + 1 < buf.length) = True := eq_true (by omega)
            rw [encSliceInvGo, encInvGo]
            simp only [hp0, hp1, hp2, hp3, reduceIte, List.map_cons, List.length_cons,
              writeBuf, List.length_set, ho1, ho2, if_true]
            rw [encSliceInvGo_eq t bs 0 none _ (o + 2)
              (by simp only [List.length_set]; omega)]
            simp only [writeAll]
            congr 2
            omega

theorem encNormGo_lt32 : ∀ (bs : List Nat) (ph : Nat) (rem : Option Nat),
    ∀ d ∈ encNormGo bs ph rem, d < 32
  | [], _, rem => by
    match rem with
    | some r => simp [encNormGo, and31_lt]
    | none => simp [encNormGo]
  | b :: bs, ph, rem => by
    intro d hd
    rw [encNormGo] at hd
    by_cases hp0 : ph = 0
    · simp only [hp0, reduceIte] at hd
      rcases List.mem_cons.mp hd with h | h
      · subst h; exact and31_lt _
      · exact encNormGo_lt32 bs 1 _ d h
    · by_cases hp1 : ph = 1
      · simp only [hp0, hp1, reduceIte] at hd
        rcases List.mem_cons.mp hd with h | h
        · subst h; exact and31_lt _
        · rcases List.mem_cons.mp h with h2 | h2
          · subst h2; exact and31_lt _
          · exact encNormGo_lt32 bs 2 _ d h2
      · by_cases hp2 : ph = 2
        · simp only [hp0, hp1, hp2, reduceIte] at hd
          rcases List.mem_cons.mp hd with h | h
          · subst h; exact and31_lt _
          · exact encNormGo_lt32 bs 3 _ d h
        · by_cases hp3 : ph = 3
          · simp only [hp0, hp1, hp2, hp3, reduceIte] at hd
            rcases List.mem_cons.mp hd with h | h
            · subst h; exact and31_lt _
            · rcases List.mem_cons.mp h with h2 | h2
              · subst h2; exact and31_lt _
              · exact encNormGo_lt32 bs 4 _ d h2
          · simp only [hp0, hp1, hp2, hp3, reduceIte] at hd
            rcases List.mem_cons.mp hd with h | h
            · subst h; exact and31_lt _
            · rcases List.mem_cons.mp h with h2 | h2
              · subst h2; exact and31_lt _
              · exact encNormGo_lt32 bs 0 none d h2

theorem encSliceNormGo_eq (t : List Nat) : ∀ (bs : List Nat) (ph : Nat) (rem : Option Nat)
    (buf : List Nat) (o : Nat), o + (encNormGo bs ph rem).length ≤ buf.length →
    encSliceNormGo t bs ph rem buf o =
      some (writeAll buf o ((encNormGo bs ph rem).map (fun d => t.getD d 0)),
            o + (encNormGo bs ph rem).length)
  | [], ph, none, buf, o, h => by
    simp [encSliceNormGo, encNormGo, writeAll]
  | [], ph, some r, buf, o, h => by
    simp only [encNormGo, List.length_cons, List.length_nil] at h
    simp only [encSliceNormGo, encNormGo, writeBuf, if_pos (show o < buf.length by omega)]
    simp [writeAll]
  | b :: bs, ph, rem, buf, o, h => by
    rw [encNormGo] at h
    by_cases hp0 : ph = 0
    · subst hp0
      simp only [reduceIte, List.length_cons] at h
      have ho1 : (o < buf.length) = True := eq_true (by omega)
      rw [encSliceNormGo, encNormGo]
      simp only [reduceIte, List.map_cons, List.length_cons, writeBuf, List.length_set,
        ho1, if_true]
      rw [encSliceNormGo_eq t bs 1 _ _ (o + 1) (by simp only [List.length_set]; omega)]
      simp only [writeAll]
      congr 2
      omega
    · by_cases hp1 : ph = 1
      · subst hp1
        simp only [eqFalse_1_0, reduceIte, List.length_cons] at h
        have ho1 : (o < buf.length) = True := eq_true (by omega)
        have ho2 : (o + 1 < buf.length) = True := eq_true (by omega)
        rw [encSliceNormGo, encNormGo]
        simp only [eqFalse_1_0, reduceIte, List.map_cons, List.length_cons, writeBuf,
          List.length_set, ho1, ho2, if_true]
        rw [encSliceNormGo_eq t bs 2 _ _ (o + 2)
          (by simp only [List.length_set]; omega)]
        simp only [writeAll]
        congr 2
        omega
      · by_cases hp2 : ph = 2
        · subst hp2
          simp only [eqFalse_2_0, eqFalse_2_1, reduceIte, List.length_cons] at h
          have ho1 : (o < buf.length) = True := eq_true (by omega)
          rw [encSliceNormGo, encNormGo]
          simp only [eqFalse_2_0, eqFalse_2_1, reduceIte, List.map_cons, List.length_cons,
            writeBuf, List.length_set, ho1, if_true]
          rw [encSliceNormGo_eq t bs 3 _ _ (o + 1) (by simp only [List.length_set]; omega)]
          simp only [writeAll]
          congr 2
          omega
        · by_cases hp3 : ph = 3
          · subst hp3
            simp only [eqFalse_3_0, eqFalse_3_1, eqFalse_3_2, reduceIte,
              List.length_cons] at h
            have ho1 : (o < buf.length) = True := eq_true (by omega)
            have ho2 : (o + 1 < buf.length) = True := eq_true (by omega)
            rw [encSliceNormGo, encNormGo]
            simp only [eqFalse_3_0, eqFalse_3_1, eqFalse_3_2, reduceIte, List.map_cons,
              List.length_cons, writeBuf, List.length_set, ho1, ho2, if_true]
            rw [encSliceNormGo_eq t bs 4 _ _ (o + 2)
              (by simp only [List.length_set]; omega)]
            simp only [writeAll]
            congr 2
            omega
          · simp only [hp0, hp1, hp2, hp3, reduceIte, List.length_cons] at h
            have ho1 : (o < buf.length) = True := eq_true (by omega)
            have ho2 : (o + 1 < buf.length) = True := eq_true (by omega)
            rw [encSliceNormGo, encNormGo]
            simp only [hp0, hp1, hp2, hp3, reduceIte, List.map_cons, List.length_cons,
              writeBuf, List.length_set, ho1, ho2, if_true]
            rw [encSliceNormGo_eq t bs 0 none _ (o + 2)
              (by simp only [List.length_set]; omega)]
            simp only [writeAll]
            congr 2
            omega

theorem eqFalse_4_0 : ((4 : Nat) = 0) = False := by decide
theorem eqFalse_4_1 : ((4 : Nat) = 1) = False := by decide
theorem eqFalse_4_2 : ((4 : Nat) = 2) = False := by decide
theorem eqFalse_4_3 : ((4 : Nat) = 3) = False := by decide

theorem encInvGo_chunk_len (b0 b1 b2 b3 b4 : Nat) (bs : List Nat) :
    (encInvGo (b0 :: b1 :: b2 :: b3 :: b4 :: bs) 0 none).length =
      8 + (encInvGo bs 0 none).length := by
  simp only [encInvGo, eqFalse_1_0, eqFalse_2_0, eqFalse_2_1, eqFalse_3_0, eqFalse_3_1,
    eqFalse_3_2, eqFalse_4_0, eqFalse_4_1, eqFalse_4_2, eqFalse_4_3, reduceIte,
    List.length_cons]
  omega

theorem encInvGo_len : ∀ bs : List Nat, (encInvGo bs 0 none).length =
    (8 * bs.length + 4) / 5
  | [] => by simp [encInvGo]
  | [b0] => by
    simp only [encInvGo, reduceIte, eqFalse_1_0, List.length_cons, List.length_singleton, List.length_nil]
  | [b0, b1] => by
    simp only [encInvGo, reduceIte, eqFalse_1_0, eqFalse_2_0, eqFalse_2_1,
      List.length_cons, List.length_singleton, List.length_nil]
  | [b0, b1, b2] => by
    simp only [encInvGo, reduceIte, eqFalse_1_0, eqFalse_2_0, eqFalse_2_1, eqFalse_3_0,
      eqFalse_3_1, eqFalse_3_2, List.length_cons, List.length_singleton, List.length_nil]
  | [b0, b1, b2, b3] => by
    simp only [encInvGo, reduceIte, eqFalse_1_0, eqFalse_2_0, eqFalse_2_1, eqFalse_3_0,
      eqFalse_3_1, eqFalse_3_2, eqFalse_4_0, eqFalse_4_1, eqFalse_4_2, eqFalse_4_3,
      List.length_cons, List.length_singleton, List.length_nil]
  | b0 :: b1 :: b2 :: b3 :: b4 :: bs => by
    rw [encInvGo_chunk_len, encInvGo_len bs]
    simp only [List.length_cons]
    omega

theorem encNormGo_chunk_len (b0 b1 b2 b3 b4 : Nat) (bs : List Nat) :
    (encNormGo (b0 :: b1 :: b2 :: b3 :: b4 :: bs) 0 none).length =
      8 + (encNormGo bs 0 none).length := by
  simp only [encNormGo, eqFalse_1_0, eqFalse_2_0, eqFalse_2_1, eqFalse_3_0, eqFalse_3_1,
    eqFalse_3_2, eqFalse_4_0, eqFalse_4_1, eqFalse_4_2, eqFalse_4_3, reduceIte,
    List.length_cons]
  omega

theorem encNormGo_len : ∀ bs : List Nat, (encNormGo bs 0 none).length =
    (8 * bs.length + 4) / 5
  | [] => by simp [encNormGo]
  | [b0] => by
    simp only [encNormGo, reduceIte, eqFalse_1_0, List.length_cons, List.length_singleton, List.length_nil]
  | [b0, b1] => by
    simp only [encNormGo, reduceIte, eqFalse_1_0, eqFalse_2_0, eqFalse_2_1,
      List.length_cons, List.length_singleton, List.length_nil]
  | [b0, b1, b2] => by
    simp only [encNormGo, reduceIte, eqFalse_1_0, eqFalse_2_0, eqFalse_2_1, eqFalse_3_0,
      eqFalse_3_1, eqFalse_3_2, List.length_cons, List.length_singleton, List.length_nil]
  | [b0, b1, b2, b3] => by
    simp only [encNormGo, reduceIte, eqFalse_1_0, eqFalse_2_0, eqFalse_2_1, eqFalse_3_0,
      eqFalse_3_1, eqFalse_3_2, eqFalse_4_0, eqFalse_4_1, eqFalse_4_2, eqFalse_4_3,
      List.length_cons, List.length_singleton, List.length_nil]
  | b0 :: b1 :: b2 :: b3 :: b4 :: bs => by
    rw [encNormGo_chunk_len, encNormGo_len bs]
    simp only [List.length_cons]
    omega

/-! ## Decoder: digit-level chunk lemmas -/

theorem leFalse_8_0 : ((8 : Nat) ≤ 0) = False := by decide
theorem leFalse_8_5 : ((8 : Nat) ≤ 5) = False := by decide
theorem leFalse_8_6 : ((8 : Nat) ≤ 6) = False := by decide
theorem leFalse_8_7 : ((8 : Nat) ≤ 7) = False := by decide
theorem leTrue_8_8 : ((8 : Nat) ≤ 8) = True := by decide
theorem leTrue_8_9 : ((8 : Nat) ≤ 9) = True := by decide
theorem leTrue_8_10 : ((8 : Nat) ≤ 10) = True := by decide
theorem leTrue_8_11 : ((8 : Nat) ≤ 11) = True := by decide
theorem leTrue_8_12 : ((8 : Nat) ≤ 12) = True := by decide
theorem ltTrue_0_5 : ((0 : Nat) < 5) = True := by decide
theorem ltTrue_0_9 : ((0 : Nat) < 9) = True := by decide
theorem ltTrue_0_10 : ((0 : Nat) < 10) = True := by decide
theorem ltTrue_0_11 : ((0 : Nat) < 11) = True := by decide
theorem ltTrue_0_12 : ((0 : Nat) < 12) = True := by decide

theorem decInv8 (d0 d1 d2 d3 d4 d5 d6 d7 : Nat) (E : List Nat)
    (h0 : d0 < 32) (h1 : d1 < 32) (h2 : d2 < 32) (h3 : d3 < 32)
    (h4 : d4 < 32) (h5 : d5 < 32) (h6 : d6 < 32) (h7 : d7 < 32) :
    decInvGo (d0 :: d1 :: d2 :: d3 :: d4 :: d5 :: d6 :: d7 :: E) 0 0 =
      ((d1 * 32 + d0) % 256) ::
      ((d3 * 128 + (d2 * 4 + (d1 * 32 + d0) / 256)) % 256) ::
      ((d4 * 16 + (d3 * 128 + (d2 * 4 + (d1 * 32 + d0) / 256)) / 256) % 256) ::
      ((d6 * 64 + (d5 * 2 +
        (d4 * 16 + (d3 * 128 + (d2 * 4 + (d1 * 32 + d0) / 256)) / 256) / 256)) % 256) ::
      decInvGo E 8 (d7 * 8 + (d6 * 64 + (d5 * 2 +
        (d4 * 16 + (d3 * 128 + (d2 * 4 + (d1 * 32 + d0) / 256)) / 256) / 256)) / 256) := by
  simp only [decInvGo, leFalse_8_0, leFalse_8_5, leFalse_8_6, leFalse_8_7, leTrue_8_8,
    leTrue_8_9, leTrue_8_10, leTrue_8_11, leTrue_8_12, reduceIte, Nat.reduceSub,
    Nat.reduceAdd, Nat.shiftLeft_zero, Nat.or_zero]
  have a1 : (d1 <<< 5) ||| d0 = d1 * 32 + d0 := by
    rw [shl5]; exact lor_eq_add (d1 * 32) d0 5 (by omega) (by omega)
  rw [a1]
  have a2 : (d2 <<< 2) ||| ((d1 * 32 + d0) >>> 8) =
      d2 * 4 + (d1 * 32 + d0) / 256 := by
    rw [shl2, shr8]; exact lor_eq_add (d2 * 4) _ 2 (by omega) (by omega)
  rw [a2]
  have a3 : (d3 <<< 7) ||| (d2 * 4 + (d1 * 32 + d0) / 256) =
      d3 * 128 + (d2 * 4 + (d1 * 32 + d0) / 256) := by
    rw [shl7]; exact lor_eq_add (d3 * 128) _ 7 (by omega) (by omega)
  rw [a3]
  have a4 : (d4 <<< 4) ||| ((d3 * 128 + (d2 * 4 + (d1 * 32 + d0) / 256)) >>> 8) =
      d4 * 16 + (d3 * 128 + (d2 * 4 + (d1 * 32 + d0) / 256)) / 256 := by
    rw [shl4, shr8]; exact lor_eq_add (d4 * 16) _ 4 (by omega) (by omega)
  rw [a4]
  have a5 : (d5 <<< 1) |||
      ((d4 * 16 + (d3 * 128 + (d2 * 4 + (d1 * 32 + d0) / 256)) / 256) >>> 8) =
      d5 * 2 + (d4 * 16 + (d3 * 128 + (d2 * 4 + (d1 * 32 + d0) / 256)) / 256) / 256 := by
    rw [shl1, shr8]; exact lor_eq_add (d5 * 2) _ 1 (by omega) (by omega)
  rw [a5]
  have a6 : (d6 <<< 6) ||| (d5 * 2 +
      (d4 * 16 + (d3 * 128 + (d2 * 4 + (d1 * 32 + d0) / 256)) / 256) / 256) =
      d6 * 64 + (d5 * 2 +
        (d4 * 16 + (d3 * 128 + (d2 * 4 + (d1 * 32 + d0) / 256)) / 256) / 256) := by
    rw [shl6]; exact lor_eq_add (d6 * 64) _ 6 (by omega) (by omega)
  rw [a6]
  have a7 : (d7 <<< 3) ||| ((d6 * 64 + (d5 * 2 +
      (d4 * 16 + (d3 * 128 + (d2 * 4 + (d1 * 32 + d0) / 256)) / 256) / 256)) >>> 8) =
      d7 * 8 + (d6 * 64 + (d5 * 2 +
        (d4 * 16 + (d3 * 128 + (d2 * 4 + (d1 * 32 + d0) / 256)) / 256) / 256)) / 256 := by
    rw [shl3, shr8]; exact lor_eq_add (d7 * 8) _ 3 (by omega) (by omega)
  rw [a7]
  simp only [and255]

theorem decInv2 (d0 d1 : Nat) (h0 : d0 < 32) :
    decInvGo [d0, d1] 0 0 = [(d1 * 32 + d0) % 256] := by
  simp only [decInvGo, leFalse_8_0, leFalse_8_5, ltTrue_0_10, reduceIte, Nat.reduceAdd,
    Nat.shiftLeft_zero, Nat.or_zero]
  have a1 : (d1 <<< 5) ||| d0 = d1 * 32 + d0 := by
    rw [shl5]; exact lor_eq_add (d1 * 32) d0 5 (by omega) (by omega)
  rw [a1]
  simp only [and255]

theorem decInv4 (d0 d1 d2 d3 : Nat) (h0 : d0 < 32) (h1 : d1 < 32) (h2 : d2 < 32) :
    decInvGo [d0, d1, d2, d3] 0 0 =
      [(d1 * 32 + d0) % 256,
       (d3 * 128 + (d2 * 4 + (d1 * 32 + d0) / 256)) % 256] := by
  simp only [decInvGo, leFalse_8_0, leFalse_8_5, leFalse_8_7, leTrue_8_10, ltTrue_0_12,
    reduceIte, Nat.reduceSub, Nat.reduceAdd, Nat.shiftLeft_zero, Nat.or_zero]
  have a1 : (d1 <<< 5) ||| d0 = d1 * 32 + d0 := by
    rw [shl5]; exact lor_eq_add (d1 * 32) d0 5 (by omega) (by omega)
  rw [a1]
  have a2 : (d2 <<< 2) ||| ((d1 * 32 + d0) >>> 8) =
      d2 * 4 + (d1 * 32 + d0) / 256 := by
    rw [shl2, shr8]; exact lor_eq_add (d2 * 4) _ 2 (by omega) (by omega)
  rw [a2]
  have a3 : (d3 <<< 7) ||| (d2 * 4 + (d1 * 32 + d0) / 256) =
      d3 * 128 + (d2 * 4 + (d1 * 32 + d0) / 256) := by
    rw [shl7]; exact lor_eq_add (d3 * 128) _ 7 (by omega) (by omega)
  rw [a3]
  simp only [and255]

theorem decInv5 (d0 d1 d2 d3 d4 : Nat) (h0 : d0 < 32) (h1 : d1 < 32) (h2 : d2 < 32)
    (h3 : d3 < 32) :
    decInvGo [d0, d1, d2, d3, d4] 0 0 =
      [(d1 * 32 + d0) % 256,
       (d3 * 128 + (d2 * 4 + (d1 * 32 + d0) / 256)) % 256,
       (d4 * 16 + (d3 * 128 + (d2 * 4 + (d1 * 32 + d0) / 256)) / 256) % 256] := by
  simp only [decInvGo, leFalse_8_0, leFalse_8_5, leFalse_8_7, leTrue_8_10, leTrue_8_12,
    ltTrue_0_9, reduceIte, Nat.reduceSub, Nat.reduceAdd, Nat.shiftLeft_zero, Nat.or_zero]
  have a1 : (d1 <<< 5) ||| d0 = d1 * 32 + d0 := by
    rw [shl5]; exact lor_eq_add (d1 * 32) d0 5 (by omega) (by omega)
  rw [a1]
  have a2 : (d2 <<< 2) ||| ((d1 * 32 + d0) >>> 8) =
      d2 * 4 + (d1 * 32 + d0) / 256 := by
    rw [shl2, shr8]; exact lor_eq_add (d2 * 4) _ 2 (by omega) (by omega)
  rw [a2]
  have a3 : (d3 <<< 7) ||| (d2 * 4 + (d1 * 32 + d0) / 256) =
      d3 * 128 + (d2 * 4 + (d1 * 32 + d0) / 256) := by
    rw [shl7]; exact lor_eq_add (d3 * 128) _ 7 (by omega) (by omega)
  rw [a3]
  have a4 : (d4 <<< 4) ||| ((d3 * 128 + (d2 * 4 + (d1 * 32 + d0) / 256)) >>> 8) =
      d4 * 16 + (d3 * 128 + (d2 * 4 + (d1 * 32 + d0) / 256)) / 256 := by
    rw [shl4, shr8]; exact lor_eq_add (d4 * 16) _ 4 (by omega) (by omega)
  rw [a4]
  simp only [and255]

theorem decInv7 (d0 d1 d2 d3 d4 d5 d6 : Nat) (h0 : d0 < 32) (h1 : d1 < 32)
    (h2 : d2 < 32) (h3 : d3 < 32) (h4 : d4 < 32) (h5 : d5 < 32) :
    decInvGo [d0, d1, d2, d3, d4, d5, d6] 0 0 =
      [(d1 * 32 + d0) % 256,
       (d3 * 128 + (d2 * 4 + (d1 * 32 + d0) / 256)) % 256,
       (d4 * 16 + (d3 * 128 + (d2 * 4 + (d1 * 32 + d0) / 256)) / 256) % 256,
       (d6 * 64 + (d5 * 2 +
         (d4 * 16 + (d3 * 128 + (d2 * 4 + (d1 * 32 + d0) / 256)) / 256) / 256)) % 256] := by
  simp only [decInvGo, leFalse_8_0, leFalse_8_5, leFalse_8_6, leFalse_8_7, leTrue_8_9,
    leTrue_8_10, leTrue_8_12, ltTrue_0_11, reduceIte, Nat.reduceSub, Nat.reduceAdd,
    Nat.shiftLeft_zero, Nat.or_zero]
  have a1 : (d1 <<< 5) ||| d0 = d1 * 32 + d0 := by
    rw [shl5]; exact lor_eq_add (d1 * 32) d0 5 (by omega) (by omega)
  rw [a1]
  have a2 : (d2 <<< 2) ||| ((d1 * 32 + d0) >>> 8) =
      d2 * 4 + (d1 * 32 + d0) / 256 := by
    rw [shl2, shr8]; exact lor_eq_add (d2 * 4) _ 2 (by omega) (by omega)
  rw [a2]
  have a3 : (d3 <<< 7) ||| (d2 * 4 + (d1 * 32 + d0) / 256) =
      d3 * 128 + (d2 * 4 + (d1 * 32 + d0) / 256) := by
    rw [shl7]; exact lor_eq_add (d3 * 128) _ 7 (by omega) (by omega)
  rw [a3]
  have a4 : (d4 <<< 4) ||| ((d3 * 128 + (d2 * 4 + (d1 * 32 + d0) / 256)) >>> 8) =
      d4 * 16 + (d3 * 128 + (d2 * 4 + (d1 * 32 + d0) / 256)) / 256 := by
    rw [shl4, shr8]; exact lor_eq_add (d4 * 16) _ 4 (by omega) (by omega)
  rw [a4]
  have a5 : (d5 <<< 1) |||
      ((d4 * 16 + (d3 * 128 + (d2 * 4 + (d1 * 32 + d0) / 256)) / 256) >>> 8) =
      d5 * 2 + (d4 * 16 + (d3 * 128 + (d2 * 4 + (d1 * 32 + d0) / 256)) / 256) / 256 := by
    rw [shl1, shr8]; exact lor_eq_add (d5 * 2) _ 1 (by omega) (by omega)
  rw [a5]
  have a6 : (d6 <<< 6) ||| (d5 * 2 +
      (d4 * 16 + (d3 * 128 + (d2 * 4 + (d1 * 32 + d0) / 256)) / 256) / 256) =
      d6 * 64 + (d5 * 2 +
        (d4 * 16 + (d3 * 128 + (d2 * 4 + (d1 * 32 + d0) / 256)) / 256) / 256) := by
    rw [shl6]; exact lor_eq_add (d6 * 64) _ 6 (by omega) (by omega)
  rw [a6]
  simp only [and255]

theorem ltTrue_0_8 : ((0 : Nat) < 8) = True := by decide
theorem ltFalse_0_0 : ((0 : Nat) < 0) = False := by decide

theorem decInvGo_state8 (ds : List Nat) (c : Nat) (hc : c < 256) :
    decInvGo ds 8 c = c :: decInvGo ds 0 0 := by
  have hcr : c >>> 8 = 0 := by rw [shr8]; omega
  cases ds with
  | nil =>
    simp only [decInvGo, ltTrue_0_8, ltFalse_0_0, reduceIte, and255,
      Nat.mod_eq_of_lt hc]
  | cons d ds =>
    simp only [decInvGo, leTrue_8_8, leFalse_8_0, reduceIte, Nat.reduceSub,
      Nat.reduceAdd, Nat.shiftLeft_zero, Nat.or_zero, hcr, and255,
      Nat.mod_eq_of_lt hc]

theorem decInv_encInv : ∀ bs : List Nat, (∀ b ∈ bs, b < 256) →
    decInvGo (encInvGo bs 0 none) 0 0 = bs
  | [], _ => by simp [encInvGo, decInvGo]
  | [b0], h => by
    have hb0 : b0 < 256 := h b0 (by simp)
    simp only [encInvGo, reduceIte, eqFalse_1_0, Option.getD_some]
    rw [decInv2 _ _ (and31_lt _)]
    simp only [List.cons.injEq, and_true, and31, shr5]
    omega
  | [b0, b1], h => by
    have hb0 : b0 < 256 := h b0 (by simp)
    have hb1 : b1 < 256 := h b1 (by simp)
    simp only [encInvGo, reduceIte, eqFalse_1_0, eqFalse_2_0, eqFalse_2_1,
      Option.getD_some]
    have ex1 : (b0 >>> 5) ||| (b1 <<< 3) = b1 * 8 + b0 / 32 := by
      rw [shr5, shl3]; exact lor_eq_add_r (b1 * 8) (b0 / 32) 3 (by omega) (by omega)
    rw [ex1]
    rw [decInv4 _ _ _ _ (and31_lt _) (and31_lt _) (and31_lt _)]
    simp only [List.cons.injEq, and_true, and31, shr5, shr10]
    omega
  | [b0, b1, b2], h => by
    have hb0 : b0 < 256 := h b0 (by simp)
    have hb1 : b1 < 256 := h b1 (by simp)
    have hb2 : b2 < 256 := h b2 (by simp)
    simp only [encInvGo, reduceIte, eqFalse_1_0, eqFalse_2_0, eqFalse_2_1, eqFalse_3_0,
      eqFalse_3_1, eqFalse_3_2, Option.getD_some]
    have ex1 : (b0 >>> 5) ||| (b1 <<< 3) = b1 * 8 + b0 / 32 := by
      rw [shr5, shl3]; exact lor_eq_add_r (b1 * 8) (b0 / 32) 3 (by omega) (by omega)
    rw [ex1]
    have ex2 : ((b1 * 8 + b0 / 32) >>> 10) ||| (b2 <<< 1) =
        b2 * 2 + (b1 * 8 + b0 / 32) / 1024 := by
      rw [shr10, shl1]; exact lor_eq_add_r (b2 * 2) _ 1 (by omega) (by omega)
    rw [ex2]
    rw [decInv5 _ _ _ _ _ (and31_lt _) (and31_lt _) (and31_lt _) (and31_lt _)]
    simp only [List.cons.injEq, and_true, and31, shr5, shr10]
    omega
  | [b0, b1, b2, b3], h => by
    have hb0 : b0 < 256 := h b0 (by simp)
    have hb1 : b1 < 256 := h b1 (by simp)
    have hb2 : b2 < 256 := h b2 (by simp)
    have hb3 : b3 < 256 := h b3 (by simp)
    simp only [encInvGo, reduceIte, eqFalse_1_0, eqFalse_2_0, eqFalse_2_1, eqFalse_3_0,
      eqFalse_3_1, eqFalse_3_2, eqFalse_4_0, eqFalse_4_1, eqFalse_4_2, eqFalse_4_3,
      Option.getD_some]
    have ex1 : (b0 >>> 5) ||| (b1 <<< 3) = b1 * 8 + b0 / 32 := by
      rw [shr5, shl3]; exact lor_eq_add_r (b1 * 8) (b0 / 32) 3 (by omega) (by omega)
    rw [ex1]
    have ex2 : ((b1 * 8 + b0 / 32) >>> 10) ||| (b2 <<< 1) =
        b2 * 2 + (b1 * 8 + b0 / 32) / 1024 := by
      rw [shr10, shl1]; exact lor_eq_add_r (b2 * 2) _ 1 (by omega) (by omega)
    rw [ex2]
    have ex3 : ((b2 * 2 + (b1 * 8 + b0 / 32) / 1024) >>> 5) ||| (b3 <<< 4) =
        b3 * 16 + (b2 * 2 + (b1 * 8 + b0 / 32) / 1024) / 32 := by
      rw [shr5, shl4]; exact lor_eq_add_r (b3 * 16) _ 4 (by omega) (by omega)
    rw [ex3]
    rw [decInv7 _ _ _ _ _ _ _ (and31_lt _) (and31_lt _) (and31_lt _) (and31_lt _)
      (and31_lt _) (and31_lt _)]
    simp only [List.cons.injEq, and_true, and31, and3, shr5, shr10]
    omega
  | b0 :: b1 :: b2 :: b3 :: b4 :: bs, h => by
    have hb0 : b0 < 256 := h b0 (by simp)
    have hb1 : b1 < 256 := h b1 (by simp)
    have hb2 : b2 < 256 := h b2 (by simp)
    have hb3 : b3 < 256 := h b3 (by simp)
    have hb4 : b4 < 256 := h b4 (by simp)
    simp only [encInvGo, reduceIte, eqFalse_1_0, eqFalse_2_0, eqFalse_2_1, eqFalse_3_0,
      eqFalse_3_1, eqFalse_3_2, eqFalse_4_0, eqFalse_4_1, eqFalse_4_2, eqFalse_4_3,
      Option.getD_some]
    have ex1 : (b0 >>> 5) ||| (b1 <<< 3) = b1 * 8 + b0 / 32 := by
      rw [shr5, shl3]; exact lor_eq_add_r (b1 * 8) (b0 / 32) 3 (by omega) (by omega)
    rw [ex1]
    have ex2 : ((b1 * 8 + b0 / 32) >>> 10) ||| (b2 <<< 1) =
        b2 * 2 + (b1 * 8 + b0 / 32) / 1024 := by
      rw [shr10, shl1]; exact lor_eq_add_r (b2 * 2) _ 1 (by omega) (by omega)
    rw [ex2]
    have ex3 : ((b2 * 2 + (b1 * 8 + b0 / 32) / 1024) >>> 5) ||| (b3 <<< 4) =
        b3 * 16 + (b2 * 2 + (b1 * 8 + b0 / 32) / 1024) / 32 := by
      rw [shr5, shl4]; exact lor_eq_add_r (b3 * 16) _ 4 (by omega) (by omega)
    rw [ex3]
    have ex4 : (((b3 * 16 + (b2 * 2 + (b1 * 8 + b0 / 32) / 1024) / 32) >>> 10) &&& 3) |||
        (b4 <<< 2) =
        b4 * 4 + (b3 * 16 + (b2 * 2 + (b1 * 8 + b0 / 32) / 1024) / 32) / 1024 % 4 := by
      rw [and3, shr10, shl2]; exact lor_eq_add_r (b4 * 4) _ 2 (by omega) (by omega)
    rw [ex4]
    rw [decInv8 _ _ _ _ _ _ _ _ _ (and31_lt _) (and31_lt _) (and31_lt _) (and31_lt _)
      (and31_lt _) (and31_lt _) (and31_lt _) (and31_lt _)]
    rw [decInvGo_state8 _ _ (by simp only [and31]; omega)]
    rw [decInv_encInv bs (fun b hb => h b (by simp [hb]))]
    simp only [List.cons.injEq, and_true, and31, shr5, shr10]
    omega

theorem decNorm8 (d0 d1 d2 d3 d4 d5 d6 d7 : Nat) (E : List Nat)
    (h1 : d1 < 32) (h2 : d2 < 32) (h3 : d3 < 32) (h4 : d4 < 32)
    (h5 : d5 < 32) (h6 : d6 < 32) (h7 : d7 < 32) :
    decNormGo (d0 :: d1 :: d2 :: d3 :: d4 :: d5 :: d6 :: d7 :: E) 0 0 =
      ((d0 * 32 + d1) / 4 % 256) ::
      ((((d0 * 32 + d1) % 4 * 32 + d2) * 32 + d3) / 16 % 256) ::
      (((((d0 * 32 + d1) % 4 * 32 + d2) * 32 + d3) % 16 * 32 + d4) / 2 % 256) ::
      ((((((d0 * 32 + d1) % 4 * 32 + d2) * 32 + d3) % 16 * 32 + d4) % 2 * 32 + d5) * 32
        + d6) / 8 % 256 ::
      (((((((d0 * 32 + d1) % 4 * 32 + d2) * 32 + d3) % 16 * 32 + d4) % 2 * 32 + d5) * 32
        + d6) % 8 * 32 + d7) % 256 ::
      decNormGo E 0 0 := by
  simp only [decNormGo, leFalse_8_5, leFalse_8_6, leFalse_8_7, leTrue_8_8, leTrue_8_9,
    leTrue_8_10, leTrue_8_11, leTrue_8_12, reduceIte, Nat.reduceSub, Nat.reduceAdd,
    Nat.reduceShiftLeft, Nat.zero_shiftLeft, Nat.zero_or, and3, and15, and1, and7,
    Nat.and_zero, and255]
  have c1 : (d0 <<< 5) ||| d1 = d0 * 32 + d1 := by
    rw [shl5]; exact lor_eq_add (d0 * 32) d1 5 (by omega) (by omega)
  rw [c1]
  have c2 : (((d0 * 32 + d1) % 4) <<< 5) ||| d2 = (d0 * 32 + d1) % 4 * 32 + d2 := by
    rw [shl5]; exact lor_eq_add ((d0 * 32 + d1) % 4 * 32) d2 5 (by omega) (by omega)
  rw [c2]
  have c3 : (((d0 * 32 + d1) % 4 * 32 + d2) <<< 5) ||| d3 =
      ((d0 * 32 + d1) % 4 * 32 + d2) * 32 + d3 := by
    rw [shl5]; exact lor_eq_add _ d3 5 (by omega) (by omega)
  rw [c3]
  have c4 : (((((d0 * 32 + d1) % 4 * 32 + d2) * 32 + d3) % 16) <<< 5) ||| d4 =
      (((d0 * 32 + d1) % 4 * 32 + d2) * 32 + d3) % 16 * 32 + d4 := by
    rw [shl5]; exact lor_eq_add _ d4 5 (by omega) (by omega)
  rw [c4]
  have c5 : ((((((d0 * 32 + d1) % 4 * 32 + d2) * 32 + d3) % 16 * 32 + d4) % 2) <<< 5) |||
      d5 = ((((d0 * 32 + d1) % 4 * 32 + d2) * 32 + d3) % 16 * 32 + d4) % 2 * 32 + d5 := by
    rw [shl5]; exact lor_eq_add _ d5 5 (by omega) (by omega)
  rw [c5]
  have c6 : ((((((d0 * 32 + d1) % 4 * 32 + d2) * 32 + d3) % 16 * 32 + d4) % 2 * 32 + d5)
      <<< 5) ||| d6 =
      (((((d0 * 32 + d1) % 4 * 32 + d2) * 32 + d3) % 16 * 32 + d4) % 2 * 32 + d5) * 32
        + d6 := by
    rw [shl5]; exact lor_eq_add _ d6 5 (by omega) (by omega)
  rw [c6]
  have c7 : ((((((((d0 * 32 + d1) % 4 * 32 + d2) * 32 + d3) % 16 * 32 + d4) % 2 * 32 + d5)
      * 32 + d6) % 8) <<< 5) ||| d7 =
      ((((((d0 * 32 + d1) % 4 * 32 + d2) * 32 + d3) % 16 * 32 + d4) % 2 * 32 + d5) * 32
        + d6) % 8 * 32 + d7 := by
    rw [shl5]; exact lor_eq_add _ d7 5 (by omega) (by omega)
  rw [c7]
  simp only [shr2, shr4, shr1, shr3, Nat.shiftRight_zero]

theorem decNorm2 (d0 d1 : Nat) (h1 : d1 < 32) :
    decNormGo [d0, d1] 0 0 = [(d0 * 32 + d1) / 4 % 256] := by
  simp only [decNormGo, leFalse_8_5, leTrue_8_10, reduceIte, Nat.reduceSub,
    Nat.reduceAdd, Nat.reduceShiftLeft, Nat.zero_shiftLeft, Nat.zero_or, and3, and255]
  have c1 : (d0 <<< 5) ||| d1 = d0 * 32 + d1 := by
    rw [shl5]; exact lor_eq_add (d0 * 32) d1 5 (by omega) (by omega)
  rw [c1]
  simp only [shr2]

theorem decNorm4 (d0 d1 d2 d3 : Nat) (h1 : d1 < 32) (h2 : d2 < 32) (h3 : d3 < 32) :
    decNormGo [d0, d1, d2, d3] 0 0 =
      [(d0 * 32 + d1) / 4 % 256,
       (((d0 * 32 + d1) % 4 * 32 + d2) * 32 + d3) / 16 % 256] := by
  simp only [decNormGo, leFalse_8_5, leFalse_8_7, leTrue_8_10, leTrue_8_12, reduceIte,
    Nat.reduceSub, Nat.reduceAdd, Nat.reduceShiftLeft, Nat.zero_shiftLeft, Nat.zero_or,
    and3, and15, and255]
  have c1 : (d0 <<< 5) ||| d1 = d0 * 32 + d1 := by
    rw [shl5]; exact lor_eq_add (d0 * 32) d1 5 (by omega) (by omega)
  rw [c1]
  have c2 : (((d0 * 32 + d1) % 4) <<< 5) ||| d2 = (d0 * 32 + d1) % 4 * 32 + d2 := by
    rw [shl5]; exact lor_eq_add ((d0 * 32 + d1) % 4 * 32) d2 5 (by omega) (by omega)
  rw [c2]
  have c3 : (((d0 * 32 + d1) % 4 * 32 + d2) <<< 5) ||| d3 =
      ((d0 * 32 + d1) % 4 * 32 + d2) * 32 + d3 := by
    rw [shl5]; exact lor_eq_add _ d3 5 (by omega) (by omega)
  rw [c3]
  simp only [shr2, shr4]

theorem decNorm5 (d0 d1 d2 d3 d4 : Nat) (h1 : d1 < 32) (h2 : d2 < 32) (h3 : d3 < 32)
    (h4 : d4 < 32) :
    decNormGo [d0, d1, d2, d3, d4] 0 0 =
      [(d0 * 32 + d1) / 4 % 256,
       (((d0 * 32 + d1) % 4 * 32 + d2) * 32 + d3) / 16 % 256,
       ((((d0 * 32 + d1) % 4 * 32 + d2) * 32 + d3) % 16 * 32 + d4) / 2 % 256] := by
  simp only [decNormGo, leFalse_8_5, leFalse_8_7, leTrue_8_9, leTrue_8_10, leTrue_8_12,
    reduceIte, Nat.reduceSub, Nat.reduceAdd, Nat.reduceShiftLeft, Nat.zero_shiftLeft,
    Nat.zero_or, and3, and15, and1, and255]
  have c1 : (d0 <<< 5) ||| d1 = d0 * 32 + d1 := by
    rw [shl5]; exact lor_eq_add (d0 * 32) d1 5 (by omega) (by omega)
  rw [c1]
  have c2 : (((d0 * 32 + d1) % 4) <<< 5) ||| d2 = (d0 * 32 + d1) % 4 * 32 + d2 := by
    rw [shl5]; exact lor_eq_add ((d0 * 32 + d1) % 4 * 32) d2 5 (by omega) (by omega)
  rw [c2]
  have c3 : (((d0 * 32 + d1) % 4 * 32 + d2) <<< 5) ||| d3 =
      ((d0 * 32 + d1) % 4 * 32 + d2) * 32 + d3 := by
    rw [shl5]; exact lor_eq_add _ d3 5 (by omega) (by omega)
  rw [c3]
  have c4 : (((((d0 * 32 + d1) % 4 * 32 + d2) * 32 + d3) % 16) <<< 5) ||| d4 =
      (((d0 * 32 + d1) % 4 * 32 + d2) * 32 + d3) % 16 * 32 + d4 := by
    rw [shl5]; exact lor_eq_add _ d4 5 (by omega) (by omega)
  rw [c4]
  simp only [shr2, shr4, shr1]

theorem decNorm7 (d0 d1 d2 d3 d4 d5 d6 : Nat) (h1 : d1 < 32) (h2 : d2 < 32)
    (h3 : d3 < 32) (h4 : d4 < 32) (h5 : d5 < 32) (h6 : d6 < 32) :
    decNormGo [d0, d1, d2, d3, d4, d5, d6] 0 0 =
      [(d0 * 32 + d1) / 4 % 256,
       (((d0 * 32 + d1) % 4 * 32 + d2) * 32 + d3) / 16 % 256,
       ((((d0 * 32 + d1) % 4 * 32 + d2) * 32 + d3) % 16 * 32 + d4) / 2 % 256,
       ((((((d0 * 32 + d1) % 4 * 32 + d2) * 32 + d3) % 16 * 32 + d4) % 2 * 32 + d5) * 32
         + d6) / 8 % 256] := by
  simp only [decNormGo, leFalse_8_5, leFalse_8_6, leFalse_8_7, leTrue_8_9, leTrue_8_10,
    leTrue_8_11, leTrue_8_12, reduceIte, Nat.reduceSub, Nat.reduceAdd,
    Nat.reduceShiftLeft, Nat.zero_shiftLeft, Nat.zero_or, and3, and15, and1, and7,
    and255]
  have c1 : (d0 <<< 5) ||| d1 = d0 * 32 + d1 := by
    rw [shl5]; exact lor_eq_add (d0 * 32) d1 5 (by omega) (by omega)
  rw [c1]
  have c2 : (((d0 * 32 + d1) % 4) <<< 5) ||| d2 = (d0 * 32 + d1) % 4 * 32 + d2 := by
    rw [shl5]; exact lor_eq_add ((d0 * 32 + d1) % 4 * 32) d2 5 (by omega) (by omega)
  rw [c2]
  have c3 : (((d0 * 32 + d1) % 4 * 32 + d2) <<< 5) ||| d3 =
      ((d0 * 32 + d1) % 4 * 32 + d2) * 32 + d3 := by
    rw [shl5]; exact lor_eq_add _ d3 5 (by omega) (by omega)
  rw [c3]
  have c4 : (((((d0 * 32 + d1) % 4 * 32 + d2) * 32 + d3) % 16) <<< 5) ||| d4 =
      (((d0 * 32 + d1) % 4 * 32 + d2) * 32 + d3) % 16 * 32 + d4 := by
    rw [shl5]; exact lor_eq_add _ d4 5 (by omega) (by omega)
  rw [c4]
  have c5 : ((((((d0 * 32 + d1) % 4 * 32 + d2) * 32 + d3) % 16 * 32 + d4) % 2) <<< 5) |||
      d5 = ((((d0 * 32 + d1) % 4 * 32 + d2) * 32 + d3) % 16 * 32 + d4) % 2 * 32 + d5 := by
    rw [shl5]; exact lor_eq_add _ d5 5 (by omega) (by omega)
  rw [c5]
  have c6 : ((((((d0 * 32 + d1) % 4 * 32 + d2) * 32 + d3) % 16 * 32 + d4) % 2 * 32 + d5)
      <<< 5) ||| d6 =
      (((((d0 * 32 + d1) % 4 * 32 + d2) * 32 + d3) % 16 * 32 + d4) % 2 * 32 + d5) * 32
        + d6 := by
    rw [shl5]; exact lor_eq_add _ d6 5 (by omega) (by omega)
  rw [c6]
  simp only [shr2, shr4, shr1, shr3]

theorem decNorm_encNorm : ∀ bs : List Nat, (∀ b ∈ bs, b < 256) →
    decNormGo (encNormGo bs 0 none) 0 0 = bs
  | [], _ => by simp [encNormGo, decNormGo]
  | [b0], h => by
    have hb0 : b0 < 256 := h b0 (by simp)
    simp only [encNormGo, reduceIte, eqFalse_1_0, Option.getD_some]
    rw [decNorm2 _ _ (and31_lt _)]
    simp only [List.cons.injEq, and_true, and31, and7, shr3, shl2]
    omega
  | [b0, b1], h => by
    have hb0 : b0 < 256 := h b0 (by simp)
    have hb1 : b1 < 256 := h b1 (by simp)
    simp only [encNormGo, reduceIte, eqFalse_1_0, eqFalse_2_0, eqFalse_2_1,
      Option.getD_some]
    have fx1 : ((((b0 &&& 7) <<< 2) <<< 6) ||| b1) = b0 % 8 * 4 * 64 + b1 := by
      simp only [and7, shl2, shl6]
      exact lor_eq_add (b0 % 8 * 4 * 64) b1 8 (by omega) (by omega)
    rw [fx1]
    rw [decNorm4 _ _ _ _ (and31_lt _) (and31_lt _) (and31_lt _)]
    simp only [List.cons.injEq, and_true, and31, and1, shr6, shr1, shl4]
    omega
  | [b0, b1, b2], h => by
    have hb0 : b0 < 256 := h b0 (by simp)
    have hb1 : b1 < 256 := h b1 (by simp)
    have hb2 : b2 < 256 := h b2 (by simp)
    simp only [encNormGo, reduceIte, eqFalse_1_0, eqFalse_2_0, eqFalse_2_1, eqFalse_3_0,
      eqFalse_3_1, eqFalse_3_2, Option.getD_some]
    have fx1 : ((((b0 &&& 7) <<< 2) <<< 6) ||| b1) = b0 % 8 * 4 * 64 + b1 := by
      simp only [and7, shl2, shl6]
      exact lor_eq_add (b0 % 8 * 4 * 64) b1 8 (by omega) (by omega)
    rw [fx1]
    have fx2 : ((((b0 % 8 * 4 * 64 + b1) &&& 1) <<< 4) <<< 4) ||| b2 =
        (b0 % 8 * 4 * 64 + b1) % 2 * 16 * 16 + b2 := by
      simp only [and1, shl4]
      exact lor_eq_add ((b0 % 8 * 4 * 64 + b1) % 2 * 16 * 16) b2 8 (by omega) (by omega)
    rw [fx2]
    rw [decNorm5 _ _ _ _ _ (and31_lt _) (and31_lt _) (and31_lt _) (and31_lt _)]
    simp only [List.cons.injEq, and_true, and31, and1, and15, shr6, shr1, shr4, shl4,
      shl1]
    omega
  | [b0, b1, b2, b3], h => by
    have hb0 : b0 < 256 := h b0 (by simp)
    have hb1 : b1 < 256 := h b1 (by simp)
    have hb2 : b2 < 256 := h b2 (by simp)
    have hb3 : b3 < 256 := h b3 (by simp)
    simp only [encNormGo, reduceIte, eqFalse_1_0, eqFalse_2_0, eqFalse_2_1, eqFalse_3_0,
      eqFalse_3_1, eqFalse_3_2, eqFalse_4_0, eqFalse_4_1, eqFalse_4_2, eqFalse_4_3,
      Option.getD_some]
    have fx1 : ((((b0 &&& 7) <<< 2) <<< 6) ||| b1) = b0 % 8 * 4 * 64 + b1 := by
      simp only [and7, shl2, shl6]
      exact lor_eq_add (b0 % 8 * 4 * 64) b1 8 (by omega) (by omega)
    rw [fx1]
    have fx2 : ((((b0 % 8 * 4 * 64 + b1) &&& 1) <<< 4) <<< 4) ||| b2 =
        (b0 % 8 * 4 * 64 + b1) % 2 * 16 * 16 + b2 := by
      simp only [and1, shl4]
      exact lor_eq_add ((b0 % 8 * 4 * 64 + b1) % 2 * 16 * 16) b2 8 (by omega) (by omega)
    rw [fx2]
    have fx3 : (((((b0 % 8 * 4 * 64 + b1) % 2 * 16 * 16 + b2) &&& 15) <<< 1) <<< 7) |||
        b3 = ((b0 % 8 * 4 * 64 + b1) % 2 * 16 * 16 + b2) % 16 * 2 * 128 + b3 := by
      simp only [and15, shl1, shl7]
      exact lor_eq_add (((b0 % 8 * 4 * 64 + b1) % 2 * 16 * 16 + b2) % 16 * 2 * 128) b3 8
        (by omega) (by omega)
    rw [fx3]
    rw [decNorm7 _ _ _ _ _ _ _ (and31_lt _) (and31_lt _) (and31_lt _) (and31_lt _)
      (and31_lt _) (and31_lt _)]
    simp only [List.cons.injEq, and_true, and31, and1, and15, and3, shr6, shr1, shr4,
      shr7, shr2, shl4, shl1, shl3]
    refine ⟨?_, ?_, ?_, ?_⟩ <;> omega
  | b0 :: b1 :: b2 :: b3 :: b4 :: bs, h => by
    have hb0 : b0 < 256 := h b0 (by simp)
    have hb1 : b1 < 256 := h b1 (by simp)
    have hb2 : b2 < 256 := h b2 (by simp)
    have hb3 : b3 < 256 := h b3 (by simp)
    have hb4 : b4 < 256 := h b4 (by simp)
    simp only [encNormGo, reduceIte, eqFalse_1_0, eqFalse_2_0, eqFalse_2_1, eqFalse_3_0,
      eqFalse_3_1, eqFalse_3_2, eqFalse_4_0, eqFalse_4_1, eqFalse_4_2, eqFalse_4_3,
      Option.getD_some]
    have fx1 : ((((b0 &&& 7) <<< 2) <<< 6) ||| b1) = b0 % 8 * 4 * 64 + b1 := by
      simp only [and7, shl2, shl6]
      exact lor_eq_add (b0 % 8 * 4 * 64) b1 8 (by omega) (by omega)
    rw [fx1]
    have fx2 : ((((b0 % 8 * 4 * 64 + b1) &&& 1) <<< 4) <<< 4) ||| b2 =
        (b0 % 8 * 4 * 64 + b1) % 2 * 16 * 16 + b2 := by
      simp only [and1, shl4]
      exact lor_eq_add ((b0 % 8 * 4 * 64 + b1) % 2 * 16 * 16) b2 8 (by omega) (by omega)
    rw [fx2]
    have fx3 : (((((b0 % 8 * 4 * 64 + b1) % 2 * 16 * 16 + b2) &&& 15) <<< 1) <<< 7) |||
        b3 = ((b0 % 8 * 4 * 64 + b1) % 2 * 16 * 16 + b2) % 16 * 2 * 128 + b3 := by
      simp only [and15, shl1, shl7]
      exact lor_eq_add (((b0 % 8 * 4 * 64 + b1) % 2 * 16 * 16 + b2) % 16 * 2 * 128) b3 8
        (by omega) (by omega)
    rw [fx3]
    have fx4 : ((((((b0 % 8 * 4 * 64 + b1) % 2 * 16 * 16 + b2) % 16 * 2 * 128 + b3) &&&
        3) <<< 3) <<< 5) ||| b4 =
        (((b0 % 8 * 4 * 64 + b1) % 2 * 16 * 16 + b2) % 16 * 2 * 128 + b3) % 4 * 8 * 32
          + b4 := by
      simp only [and3, shl3, shl5]
      exact lor_eq_add
        ((((b0 % 8 * 4 * 64 + b1) % 2 * 16 * 16 + b2) % 16 * 2 * 128 + b3) % 4 * 8 * 32)
        b4 8 (by omega) (by omega)
    rw [fx4]
    rw [decNorm8 _ _ _ _ _ _ _ _ _ (and31_lt _) (and31_lt _) (and31_lt _) (and31_lt _)
      (and31_lt _) (and31_lt _) (and31_lt _)]
    rw [decNorm_encNorm bs (fun b hb => h b (by simp [hb]))]
    simp only [List.cons.injEq, and_true, and31, and1, and15, and3, shr6, shr1, shr4,
      shr7, shr2, shr5, shl4, shl1, shl3]
    refine ⟨?_, ?_, ?_, ?_, ?_⟩ <;> omega

/-! ## Decoded length accounting -/

theorem decInvGo_len_fun : ∀ (ds : List Nat) (p acc : Nat),
    (decInvGo ds p acc).length = dlenInv ds.length p
  | [], p, acc => by
    simp only [decInvGo, dlenInv, List.length_nil]
    split <;> simp
  | d :: ds, p, acc => by
    simp only [decInvGo, List.length_cons, dlenInv]
    by_cases hp : 8 ≤ p
    · simp only [if_pos hp, List.length_cons, decInvGo_len_fun ds]; omega
    · simp only [if_neg hp, decInvGo_len_fun ds]

theorem decNormGo_len_fun : ∀ (ds : List Nat) (p acc : Nat),
    (decNormGo ds p acc).length = dlenNorm ds.length p
  | [], p, acc => by simp [decNormGo, dlenNorm]
  | d :: ds, p, acc => by
    simp only [decNormGo, List.length_cons, dlenNorm]
    by_cases hp : 8 ≤ p + 5
    · simp only [if_pos hp, List.length_cons, decNormGo_len_fun ds]; omega
    · simp only [if_neg hp, decNormGo_len_fun ds]

theorem dlenInv_state8 : ∀ m, dlenInv m 8 = 1 + dlenInv m 0
  | 0 => by decide
  | m + 1 => by
    simp only [dlenInv, leTrue_8_8, leFalse_8_0, reduceIte, Nat.reduceSub, Nat.reduceAdd]

theorem dlenInv_chunk (m : Nat) : dlenInv (m + 8) 0 = 5 + dlenInv m 0 := by
  simp only [dlenInv, leFalse_8_0, leFalse_8_5, leFalse_8_6, leFalse_8_7, leTrue_8_9,
    leTrue_8_10, leTrue_8_11, leTrue_8_12, reduceIte, Nat.reduceSub, Nat.reduceAdd]
  rw [dlenInv_state8 m]
  omega

theorem dlenInv_formula : ∀ n, dlenInv n 0 =
    5 * n / 8 + (if n % 8 = 1 ∨ n % 8 = 3 ∨ n % 8 = 6 then 1 else 0)
  | 0 => by decide
  | 1 => by decide
  | 2 => by decide
  | 3 => by decide
  | 4 => by decide
  | 5 => by decide
  | 6 => by decide
  | 7 => by decide
  | n + 8 => by
    rw [dlenInv_chunk, dlenInv_formula n, Nat.add_mod_right]
    by_cases hc : n % 8 = 1 ∨ n % 8 = 3 ∨ n % 8 = 6
    · simp only [if_pos hc]; omega
    · simp only [if_neg hc]; omega

theorem dlenNorm_chunk (m : Nat) : dlenNorm (m + 8) 0 = 5 + dlenNorm m 0 := by
  simp only [dlenNorm, leFalse_8_5, leFalse_8_6, leFalse_8_7, leTrue_8_8, leTrue_8_9,
    leTrue_8_10, leTrue_8_11, leTrue_8_12, reduceIte, Nat.reduceSub, Nat.reduceAdd]
  omega

theorem dlenNorm_formula : ∀ n, dlenNorm n 0 = 5 * n / 8
  | 0 => by decide
  | 1 => by decide
  | 2 => by decide
  | 3 => by decide
  | 4 => by decide
  | 5 => by decide
  | 6 => by decide
  | 7 => by decide
  | n + 8 => by
    rw [dlenNorm_chunk, dlenNorm_formula n]
    omega

/-! ## Decoder: slice/digit correspondence -/

theorem get?_some_getD : ∀ (l : List Nat) (n : Nat), n < l.length →
    l.get? n = some (l.getD n 0)
  | a :: l, 0, _ => rfl
  | a :: l, n + 1, h => by
    have := get?_some_getD l n (by simp only [List.length_cons] at h; omega)
    simpa using this

theorem decSliceInvGo_ok (tbl : List Nat) : ∀ (cs : List Nat) (i p acc o : Nat)
    (buf : List Nat),
    (∀ c ∈ cs, c < tbl.length ∧ tbl.getD c 0 < 32) →
    8 * o + p = 5 * i → p ≤ 12 →
    5 * (i + cs.length) ≤ 8 * buf.length →
    decSliceInvGo tbl cs i p acc buf o =
      some (.ok (), writeAll buf o (decInvGo (cs.map fun c => tbl.getD c 0) p acc),
        o + (decInvGo (cs.map fun c => tbl.getD c 0) p acc).length)
  | [], i, p, acc, o, buf, hval, hstate, hp12, hbound => by
    simp only [List.length_nil, Nat.add_zero] at hbound
    simp only [List.map_nil, decInvGo, decSliceInvGo]
    by_cases hp : 0 < p
    · have ho : o < buf.length := by omega
      simp only [if_pos hp, writeBuf_some _ _ _ ho, writeAll]
      simp [writeAll]
    · simp [if_neg hp, writeAll]
  | c :: cs, i, p, acc, o, buf, hval, hstate, hp12, hbound => by
    obtain ⟨hc, hd⟩ := hval c (List.mem_cons_self c cs)
    have hget : tbl.get? c = some (tbl.getD c 0) := get?_some_getD tbl c hc
    have hval2 : ∀ x ∈ cs, x < tbl.length ∧ tbl.getD x 0 < 32 :=
      fun x hx => hval x (List.mem_cons_of_mem c hx)
    simp only [List.length_cons] at hbound
    by_cases h8 : 8 ≤ p
    · have ho : o < buf.length := by omega
      rw [decSliceInvGo]
      simp only [if_pos h8, writeBuf_some _ _ _ ho, hget,
        if_neg (show ¬(tbl.getD c 0 = 255) by omega)]
      rw [decSliceInvGo_ok tbl cs (i + 1) ((p - 8) + 5)
        ((tbl.getD c 0 <<< (p - 8)) ||| (acc >>> 8)) (o + 1) (buf.set o (acc &&& 255))
        hval2 (by omega) (by omega) (by simp only [List.length_set]; omega)]
      simp only [List.map_cons, decInvGo, if_pos h8, writeAll, List.length_cons]
      simp only [Option.some.injEq, Prod.mk.injEq]
      refine ⟨trivial, trivial, ?_⟩
      omega
    · rw [decSliceInvGo]
      simp only [if_neg h8, hget, if_neg (show ¬(tbl.getD c 0 = 255) by omega)]
      rw [decSliceInvGo_ok tbl cs (i + 1) (p + 5) ((tbl.getD c 0 <<< p) ||| acc) o buf
        hval2 (by omega) (by omega) (by omega)]
      simp only [List.map_cons, decInvGo, if_neg h8]

theorem decSliceNormGo_ok (tbl : List Nat) : ∀ (cs : List Nat) (i p acc o : Nat)
    (buf : List Nat),
    (∀ c ∈ cs, c < tbl.length ∧ tbl.getD c 0 < 32) →
    8 * o + p = 5 * i → p ≤ 7 →
    5 * (i + cs.length) ≤ 8 * buf.length →
    decSliceNormGo tbl cs i p acc buf o =
      some (.ok (), writeAll buf o (decNormGo (cs.map fun c => tbl.getD c 0) p acc),
        o + (decNormGo (cs.map fun c => tbl.getD c 0) p acc).length)
  | [], i, p, acc, o, buf, hval, hstate, hp7, hbound => by
    simp [decSliceNormGo, decNormGo, writeAll]
  | c :: cs, i, p, acc, o, buf, hval, hstate, hp7, hbound => by
    obtain ⟨hc, hd⟩ := hval c (List.mem_cons_self c cs)
    have hget : tbl.get? c = some (tbl.getD c 0) := get?_some_getD tbl c hc
    have hval2 : ∀ x ∈ cs, x < tbl.length ∧ tbl.getD x 0 < 32 :=
      fun x hx => hval x (List.mem_cons_of_mem c hx)
    simp only [List.length_cons] at hbound
    by_cases h8 : 8 ≤ p + 5
    · have ho : o < buf.length := by omega
      rw [decSliceNormGo]
      simp only [hget, if_neg (show ¬(tbl.getD c 0 = 255) by omega), if_pos h8,
        writeBuf_some _ _ _ ho]
      rw [decSliceNormGo_ok tbl cs (i + 1) (p + 5 - 8)
        (((acc <<< 5) ||| tbl.getD c 0) &&& ((1 <<< (p + 5 - 8)) - 1)) (o + 1)
        (buf.set o ((((acc <<< 5) ||| tbl.getD c 0) >>> (p + 5 - 8)) &&& 255))
        hval2 (by omega) (by omega) (by simp only [List.length_set]; omega)]
      simp only [List.map_cons, decNormGo, if_pos h8, writeAll, List.length_cons]
      simp only [Option.some.injEq, Prod.mk.injEq]
      refine ⟨trivial, trivial, ?_⟩
      omega
    · rw [decSliceNormGo]
      simp only [hget, if_neg (show ¬(tbl.getD c 0 = 255) by omega), if_neg h8]
      rw [decSliceNormGo_ok tbl cs (i + 1) (p + 5) ((acc <<< 5) ||| tbl.getD c 0) o buf
        hval2 (by omega) (by omega) (by omega)]
      simp only [List.map_cons, decNormGo, if_neg h8]

/-! ## Top level codec lemmas -/

theorem getD_mem (l : List Nat) (n : Nat) (h : n < l.length) : l.getD n 0 ∈ l := by
  rw [List.getD_eq_getElem?_getD, List.getElem?_eq_getElem h]
  exact List.getElem_mem h

theorem decoded_len_eq (n : Nat) (hn : n ≤ 2 ^ 62) :
    decoded_len n = some (n / 8 * 5 + n % 8) := by
  have h1 : n / 8 * 5 ≤ USIZE_MAX := by unfold USIZE_MAX; omega
  have h2 : n / 8 * 5 + n % 8 ≤ USIZE_MAX := by unfold USIZE_MAX; omega
  simp [decoded_len, checked_mul, checked_add, h1, h2]

theorem encoded_len_eq (n : Nat) (hn : n ≤ 2 ^ 60) :
    encoded_len n = some (n / 5 * 8 + (n % 5 * 2 + 1)) := by
  have h1 : n / 5 * 8 ≤ USIZE_MAX := by unfold USIZE_MAX; omega
  have h2 : n / 5 * 8 + (n % 5 * 2 + 1) ≤ USIZE_MAX := by unfold USIZE_MAX; omega
  simp [encoded_len, checked_mul, checked_add, h1, h2]

theorem listResize_nil (est : Nat) : listResize [] est = List.replicate est 0 := by
  unfold listResize
  by_cases h : est ≤ ([] : List Nat).length
  · rw [if_pos h]
    simp at h
    simp [h]
  · rw [if_neg h]
    simp

theorem listResize_writeAll (est : Nat) (out : List Nat) (h : out.length ≤ est) :
    listResize (writeAll (List.replicate est 0) 0 out) out.length = out := by
  unfold listResize
  rw [if_pos (by rw [writeAll_length, List.length_replicate]; exact h)]
  exact take_writeAll out _ (by rw [List.length_replicate]; exact h)

theorem eqFalse_norm_inv :
    (EncodeOrder.OrderNormal = EncodeOrder.OrderInversed) = False := by decide

theorem decode_alphabet_ok (a : Alphabet) (input : List Nat)
    (hval : ∀ c ∈ input, c < a.decode_bytes.length ∧ a.decode_bytes.getD c 0 < 32)
    (hn : input.length ≤ 2 ^ 62) :
    decode_alphabet input a =
      some (.ok (decDigits a.encode_order
        (input.map fun c => a.decode_bytes.getD c 0))) := by
  have hdl := decoded_len_eq input.length hn
  simp only [decode_alphabet, decode_alphabet_vec, hdl, listResize_nil]
  cases horder : a.encode_order with
  | OrderInversed =>
    simp only [reduceIte]
    rw [decSliceInvGo_ok a.decode_bytes input 0 0 0 0
      (List.replicate (input.length / 8 * 5 + input.length % 8) 0) hval (by omega)
      (by omega) (by simp only [List.length_replicate]; omega)]
    have hlen : (decInvGo (input.map fun c => a.decode_bytes.getD c 0) 0 0).length ≤
        input.length / 8 * 5 + input.length % 8 := by
      rw [decInvGo_len_fun, List.length_map, dlenInv_formula]
      by_cases hc : input.length % 8 = 1 ∨ input.length % 8 = 3 ∨ input.length % 8 = 6
      · simp only [if_pos hc]; omega
      · simp only [if_neg hc]; omega
    have hfin := listResize_writeAll (input.length / 8 * 5 + input.length % 8)
      (decInvGo (input.map fun c => a.decode_bytes.getD c 0) 0 0) hlen
    simp only [decDigits, horder, Nat.zero_add]
    rw [hfin]
  | OrderNormal =>
    simp only [eqFalse_norm_inv, reduceIte]
    rw [decSliceNormGo_ok a.decode_bytes input 0 0 0 0
      (List.replicate (input.length / 8 * 5 + input.length % 8) 0) hval (by omega)
      (by omega) (by simp only [List.length_replicate]; omega)]
    have hlen : (decNormGo (input.map fun c => a.decode_bytes.getD c 0) 0 0).length ≤
        input.length / 8 * 5 + input.length % 8 := by
      rw [decNormGo_len_fun, List.length_map, dlenNorm_formula]
      omega
    have hfin := listResize_writeAll (input.length / 8 * 5 + input.length % 8)
      (decNormGo (input.map fun c => a.decode_bytes.getD c 0) 0 0) hlen
    simp only [decDigits, horder, Nat.zero_add]
    rw [hfin]

theorem encode_alphabet_ok (a : Alphabet) (input : List Nat)
    (h32 : a.encode_symbols.length = 32)
    (hsym : ∀ s ∈ a.encode_symbols, s < 128)
    (hn : input.length ≤ 2 ^ 60) :
    encode_alphabet input a =
      some ((encDigits a.encode_order input).map fun d => a.encode_symbols.getD d 0) := by
  have hel := encoded_len_eq input.length hn
  simp only [encode_alphabet, encode_alphabet_slice, hel]
  cases horder : a.encode_order with
  | OrderInversed =>
    simp only [reduceIte]
    have hlen : (encInvGo input 0 none).length ≤
        input.length / 5 * 8 + (input.length % 5 * 2 + 1) := by
      rw [encInvGo_len]; omega
    rw [encSliceInvGo_eq a.encode_symbols input 0 none
      (List.replicate (input.length / 5 * 8 + (input.length % 5 * 2 + 1)) 0) 0
      (by simp only [List.length_replicate]; omega)]
    have hfin := take_writeAll
      ((encInvGo input 0 none).map fun d => a.encode_symbols.getD d 0)
      (List.replicate (input.length / 5 * 8 + (input.length % 5 * 2 + 1)) 0)
      (by rw [List.length_map, List.length_replicate]; exact hlen)
    rw [List.length_map] at hfin
    have hall : (((encInvGo input 0 none).map fun d => a.encode_symbols.getD d 0).all
        fun b => decide (b < 128)) = true := by
      rw [List.all_eq_true]
      intro x hx
      rcases List.mem_map.mp hx with ⟨d, hd, rfl⟩
      have hd32 := encInvGo_lt32 input 0 none d hd
      exact decide_eq_true (hsym _ (getD_mem _ _ (by omega)))
    simp only [Nat.zero_add, encDigits, horder]
    rw [hfin, if_pos hall]
  | OrderNormal =>
    simp only [eqFalse_norm_inv, reduceIte]
    have hlen : (encNormGo input 0 none).length ≤
        input.length / 5 * 8 + (input.length % 5 * 2 + 1) := by
      rw [encNormGo_len]; omega
    rw [encSliceNormGo_eq a.encode_symbols input 0 none
      (List.replicate (input.length / 5 * 8 + (input.length % 5 * 2 + 1)) 0) 0
      (by simp only [List.length_replicate]; omega)]
    have hfin := take_writeAll
      ((encNormGo input 0 none).map fun d => a.encode_symbols.getD d 0)
      (List.replicate (input.length / 5 * 8 + (input.length % 5 * 2 + 1)) 0)
      (by rw [List.length_map, List.length_replicate]; exact hlen)
    rw [List.length_map] at hfin
    have hall : (((encNormGo input 0 none).map fun d => a.encode_symbols.getD d 0).all
        fun b => decide (b < 128)) = true := by
      rw [List.all_eq_true]
      intro x hx
      rcases List.mem_map.mp hx with ⟨d, hd, rfl⟩
      have hd32 := encNormGo_lt32 input 0 none d hd
      exact decide_eq_true (hsym _ (getD_mem _ _ (by omega)))
    simp only [Nat.zero_add, encDigits, horder]
    rw [hfin, if_pos hall]

/-! ## Round trip assembly -/

theorem encDigits_lt32 (order : EncodeOrder) (bs : List Nat) :
    ∀ d ∈ encDigits order bs, d < 32 := by
  cases order with
  | OrderInversed => exact encInvGo_lt32 bs 0 none
  | OrderNormal => exact encNormGo_lt32 bs 0 none

theorem decDigits_encDigits (order : EncodeOrder) (bs : List Nat)
    (hb : ∀ b ∈ bs, b < 256) : decDigits order (encDigits order bs) = bs := by
  cases order with
  | OrderInversed => exact decInv_encInv bs hb
  | OrderNormal => exact decNorm_encNorm bs hb

theorem encDigits_len_le (order : EncodeOrder) (bs : List Nat) :
    (encDigits order bs).length = (8 * bs.length + 4) / 5 := by
  cases order with
  | OrderInversed => exact encInvGo_len bs
  | OrderNormal => exact encNormGo_len bs

theorem roundtrip_general (a : Alphabet) (bs : List Nat)
    (hb : ∀ b ∈ bs, b < 256)
    (h32 : a.encode_symbols.length = 32)
    (hsym : ∀ s ∈ a.encode_symbols, s < 128)
    (hinv : ∀ d, d < 32 → a.encode_symbols.getD d 0 < a.decode_bytes.length ∧
      a.decode_bytes.getD (a.encode_symbols.getD d 0) 0 = d)
    (hn : bs.length ≤ 2 ^ 60) :
    ∃ es, encode_alphabet bs a = some es ∧ decode_alphabet es a = some (.ok bs) := by
  refine ⟨(encDigits a.encode_order bs).map fun d => a.encode_symbols.getD d 0,
    encode_alphabet_ok a bs h32 hsym hn, ?_⟩
  have hval : ∀ c ∈ (encDigits a.encode_order bs).map fun d => a.encode_symbols.getD d 0,
      c < a.decode_bytes.length ∧ a.decode_bytes.getD c 0 < 32 := by
    intro c hc
    rcases List.mem_map.mp hc with ⟨d, hd, rfl⟩
    have hd32 := encDigits_lt32 a.encode_order bs d hd
    obtain ⟨hlt, heq⟩ := hinv d hd32
    exact ⟨hlt, by rw [heq]; exact hd32⟩
  have hn2 : ((encDigits a.encode_order bs).map
      fun d => a.encode_symbols.getD d 0).length ≤ 2 ^ 62 := by
    rw [List.length_map, encDigits_len_le]
    omega
  rw [decode_alphabet_ok a _ hval hn2]
  rw [List.map_map]
  have hmap : (encDigits a.encode_order bs).map
      ((fun c => a.decode_bytes.getD c 0) ∘ fun d => a.encode_symbols.getD d 0) =
      (encDigits a.encode_order bs).map id := by
    apply List.map_congr_left
    intro d hd
    exact (hinv d (encDigits_lt32 a.encode_order bs d hd)).2
  rw [hmap, List.map_id, decDigits_encDigits a.encode_order bs hb]

theorem zbase32_facts : ZBASE32.encode_symbols.length = 32 ∧
    (∀ s ∈ ZBASE32.encode_symbols, s < 128) ∧
    (∀ d, d < 32 → ZBASE32.encode_symbols.getD d 0 < ZBASE32.decode_bytes.length ∧
      ZBASE32.decode_bytes.getD (ZBASE32.encode_symbols.getD d 0) 0 = d) := by
  refine ⟨by decide, by decide, ?_⟩
  decide

theorem rfc_facts : RFC.encode_symbols.length = 32 ∧
    (∀ s ∈ RFC.encode_symbols, s < 128) ∧
    (∀ d, d < 32 → RFC.encode_symbols.getD d 0 < RFC.decode_bytes.length ∧
      RFC.decode_bytes.getD (RFC.encode_symbols.getD d 0) 0 = d) := by
  refine ⟨by decide, by decide, ?_⟩
  decide

theorem bech32_facts : BECH32.encode_symbols.length = 32 ∧
    (∀ s ∈ BECH32.encode_symbols, s < 128) ∧
    (∀ d, d < 32 → BECH32.encode_symbols.getD d 0 < BECH32.decode_bytes.length ∧
      BECH32.decode_bytes.getD (BECH32.encode_symbols.getD d 0) 0 = d) := by
  refine ⟨by decide, by decide, ?_⟩
  decide

/-- C1: for every byte sequence and each built-in alphabet (ZBASE32, RFC,
BECH32), decoding the encoding returns exactly the original bytes:
`decode_alphabet (encode_alphabet b a) a = Ok b`.  The length bound keeps the
`encoded_len` pre-check away from `usize` overflow (`2 ^ 60` covers every
length the claim mentions); bytes are below 256 as the Rust `u8` guarantees. -/
theorem C1_roundtrip_builtin_alphabets (a : Alphabet)
    (ha : a = ZBASE32 ∨ a = RFC ∨ a = BECH32)
    (bs : List Nat) (hb : ∀ b ∈ bs, b < 256) (hn : bs.length ≤ 2 ^ 60) :
    ∃ es, encode_alphabet bs a = some es ∧ decode_alphabet es a = some (.ok bs) := by
  rcases ha with rfl | rfl | rfl
  · exact roundtrip_general _ bs hb zbase32_facts.1 zbase32_facts.2.1 zbase32_facts.2.2 hn
  · exact roundtrip_general _ bs hb rfc_facts.1 rfc_facts.2.1 rfc_facts.2.2 hn
  · exact roundtrip_general _ bs hb bech32_facts.1 bech32_facts.2.1 bech32_facts.2.2 hn

/-- C1 witness: the round trip at a concrete input ("hello", zbase32). -/
theorem C1_roundtrip_builtin_alphabets_witness :
    ∃ es, encode_alphabet (strBytes "hello") ZBASE32 = some es ∧
      decode_alphabet es ZBASE32 = some (.ok (strBytes "hello")) :=
  C1_roundtrip_builtin_alphabets ZBASE32 (Or.inl rfl) (strBytes "hello")
    (by decide) (by decide)

/-! ## Claim theorems -/

/-- C2 (divergence exhibit): byte 255 can never be an alphabet symbol, so the
claim requires `decode_alphabet_vec` to return `InvalidByte` on input `[255]`;
instead the lookup `decode_bytes[255]` indexes past the 255-entry table and
the call panics (modelled by `none`). -/
theorem C2_decode_byte_255_out_of_bounds :
    (255 ∉ ZBASE32.encode_symbols) ∧
    decode_alphabet_vec [255] [] ZBASE32 = none :=
  ⟨by decide, by rfl⟩

/-- C3 (divergence exhibit): the 32-byte alphabet "~BCDEFGHIJKLMNOPQRSTUVWXYZ234567"
is exactly 32 bytes, all in the printable range [32,126], and duplicate-free,
so the claim requires `from_str_order` to return `Ok`; instead byte 126
passes the printability test and then indexes `dups[94]`, one past the
94-entry `dups` array, and the call panics (modelled by `none`). -/
theorem C3_from_str_order_tilde_panics :
    (strBytes "~BCDEFGHIJKLMNOPQRSTUVWXYZ234567").length = 32 ∧
    (∀ b ∈ strBytes "~BCDEFGHIJKLMNOPQRSTUVWXYZ234567", 32 ≤ b ∧ b ≤ 126) ∧
    (strBytes "~BCDEFGHIJKLMNOPQRSTUVWXYZ234567").Nodup ∧
    Alphabet.from_str_order (strBytes "~BCDEFGHIJKLMNOPQRSTUVWXYZ234567")
      .OrderNormal = none :=
  ⟨by decide, by decide, by decide, by rfl⟩

/-- C4 counterexample: `encoded_len 0` is `some 1`, not the `some 0` the
claimed formula `8*(n/5) + {0,2,4,5,7}` yields at `n = 0`. -/
theorem C4_encoded_len_counterexample :
    ¬(encoded_len 0 = some (8 * (0 / 5) + 0)) ∧ encoded_len 0 = some 1 :=
  ⟨by decide, by decide⟩

/-- C4 (amended): `encoded_len n` is `some (8*(n/5) + 2*(n%5) + 1)` — one
more than the exact encoded length for `n % 5 ∈ {0,1,2}` and two more for
`n % 5 ∈ {3,4}` — and `none` exactly when that arithmetic overflows the
64-bit size type. -/
theorem C4_encoded_len_formula (n : Nat) :
    encoded_len n = if n / 5 * 8 + (n % 5 * 2 + 1) ≤ USIZE_MAX then
      some (n / 5 * 8 + (n % 5 * 2 + 1)) else none := by
  unfold encoded_len checked_mul checked_add
  by_cases h1 : n / 5 * 8 ≤ USIZE_MAX
  · simp only [if_pos h1, Option.bind]
  · simp only [if_neg h1, Option.bind]
    rw [if_neg (by omega)]

/-- C5 counterexample: decoding the single valid zbase32 symbol "b" (value 1)
returns one byte, not the `⌊5*1/8⌋ = 0` bytes the claim predicts — the
inverted-order decoder flushes leftover bits instead of discarding them. -/
theorem C5_decoded_length_counterexample :
    decode_alphabet [98] ZBASE32 = some (.ok [1]) ∧ ¬((1 : Nat) = 5 * 1 / 8) :=
  ⟨by rfl, by decide⟩

/-- C5 (amended): for every accepted symbol sequence, the decoded length is
`⌊5n/8⌋` in normal order (leftover bits are discarded there), while in
inverted order one extra byte holding the fewer-than-8 leftover bits is
emitted whenever `n % 8 ∈ {1, 3, 6}`. -/
theorem C5_decoded_length (a : Alphabet) (input : List Nat)
    (hval : ∀ c ∈ input, c < a.decode_bytes.length ∧ a.decode_bytes.getD c 0 < 32)
    (hn : input.length ≤ 2 ^ 62) :
    ∃ bs, decode_alphabet input a = some (.ok bs) ∧
      bs.length = 5 * input.length / 8 +
        (if a.encode_order = .OrderInversed ∧ (input.length % 8 = 1 ∨
          input.length % 8 = 3 ∨ input.length % 8 = 6) then 1 else 0) := by
  refine ⟨_, decode_alphabet_ok a input hval hn, ?_⟩
  cases horder : a.encode_order with
  | OrderInversed =>
    simp only [decDigits, decInvGo_len_fun, List.length_map, dlenInv_formula, horder,
      true_and]
  | OrderNormal =>
    simp only [decDigits, decNormGo_len_fun, List.length_map, dlenNorm_formula, horder,
      eqFalse_norm_inv, false_and, if_false, Nat.add_zero]

/-- C5 witness: the amended length formula at the concrete input "b". -/
theorem C5_decoded_length_witness :
    ∃ bs, decode_alphabet [98] ZBASE32 = some (.ok bs) ∧
      bs.length = 5 * [98].length / 8 +
        (if ZBASE32.encode_order = .OrderInversed ∧ (([98] : List Nat).length % 8 = 1 ∨
          ([98] : List Nat).length % 8 = 3 ∨ ([98] : List Nat).length % 8 = 6)
         then 1 else 0) :=
  C5_decoded_length ZBASE32 [98] (by decide) (by decide)

/-- C9: the known test vectors, zbase32 default alphabet and RFC 4648. -/
theorem C9_known_vectors :
    encode (strBytes "hello") = some (strBytes "em3ags7p") ∧
    decode (strBytes "em3ags7p") = some (.ok (strBytes "hello")) ∧
    encode (strBytes "a") = some (strBytes "bd") ∧
    encode (strBytes "aa") = some (strBytes "bmay") ∧
    encode (strBytes "aaaaaaaa") = some (strBytes "bmansofcbmang") ∧
    encode_alphabet (strBytes "hello") RFC = some (strBytes "NBSWY3DP") ∧
    encode_alphabet (strBytes "test123") RFC = some (strBytes "ORSXG5BRGIZQ") :=
  ⟨by decide, by rfl, by decide, by decide, by decide, by decide, by decide⟩

/-- C10: on an `InvalidByte` error the caller buffer does not keep its
pre-call contents: decoding "8yy0" (invalid at offset 3) with a pre-call
buffer `[1, 2, 3]` leaves the buffer resized to the 4-byte estimate, with the
partially decoded byte 7 written at index 0 and a zero fill at the end. -/
theorem C10_decode_vec_buffer_not_atomic :
    decode_alphabet_vec (strBytes "8yy0") [1, 2, 3] ZBASE32 =
      some (.error (.InvalidByte 3 48), [7, 2, 3, 0]) ∧
    [7, 2, 3, 0] ≠ [1, 2, 3] :=
  ⟨by rfl, by decide⟩

/-- C7: validating each built-in 32-symbol string with its bit order succeeds
and rebuilds a value structurally equal to the trusted constant. -/
theorem C7_from_str_order_builtins :
    Alphabet.from_str_order (strBytes "ybndrfg8ejkmcpqxot1uwisza345h769")
      .OrderInversed = some (.ok ZBASE32) ∧
    Alphabet.from_str_order (strBytes "ABCDEFGHIJKLMNOPQRSTUVWXYZ234567")
      .OrderNormal = some (.ok RFC) ∧
    Alphabet.from_str_order (strBytes "qpzry9x8gf2tvdw0s3jn54khce6mua7l")
      .OrderNormal = some (.ok BECH32) :=
  ⟨by rfl, by rfl, by rfl⟩

/-- C6 (divergence exhibit): the decode table has 255 entries, not 256, so
looking up byte value 255 goes out of bounds (`none`) instead of yielding the
sentinel; on its 255 existing entries the table is the structural inverse of
`encode_symbols` (each symbol maps to its index, every other byte to 0xFF). -/
theorem C6_decode_table_inverse :
    ZBASE32.decode_bytes.length = 255 ∧
    ZBASE32.decode_bytes.get? 255 = none ∧
    (∀ d, d < 32 → ZBASE32.decode_bytes.getD (ZBASE32.encode_symbols.getD d 0) 0 = d) ∧
    (∀ b, b < 255 → b ∉ ZBASE32.encode_symbols → ZBASE32.decode_bytes.getD b 0 = 255) := by
  refine ⟨by decide, by decide, fun d hd => (zbase32_facts.2.2 d hd).2, by decide⟩

/-- C8: encoding the empty sequence yields the empty string for every
alphabet, and with the output buffer sized by `encoded_len` the slice encoder
never fails: it runs to completion and returns the count of symbols
written, `8*(n/5) + ⌈8*(n%5)/5⌉ = (8n+4)/5`. -/
theorem C8_encode_never_fails :
    (∀ a : Alphabet, encode_alphabet [] a = some []) ∧
    (∀ (a : Alphabet) (input : List Nat) (sz : Nat),
      encoded_len input.length = some sz →
      ∃ r, encode_alphabet_slice input (List.replicate sz 0) a = some r ∧
        r.2 = (8 * input.length + 4) / 5) := by
  constructor
  · intro a
    have h0 : encoded_len 0 = some 1 := by decide
    simp only [encode_alphabet, List.length_nil, h0, encode_alphabet_slice]
    cases horder : a.encode_order with
    | OrderInversed => simp [encSliceInvGo]
    | OrderNormal => simp [eqFalse_norm_inv, encSliceNormGo]
  · intro a input sz hsz
    have hsz2 : sz = input.length / 5 * 8 + (input.length % 5 * 2 + 1) := by
      unfold encoded_len checked_mul checked_add at hsz
      by_cases h1 : input.length / 5 * 8 ≤ USIZE_MAX
      · simp only [if_pos h1, Option.bind] at hsz
        by_cases h2 : input.length / 5 * 8 + (input.length % 5 * 2 + 1) ≤ USIZE_MAX
        · rw [if_pos h2] at hsz
          injection hsz with h
          omega
        · rw [if_neg h2] at hsz; cases hsz
      · simp only [if_neg h1, Option.bind] at hsz; cases hsz
    subst hsz2
    cases horder : a.encode_order with
    | OrderInversed =>
      refine ⟨(writeAll (List.replicate
          (input.length / 5 * 8 + (input.length % 5 * 2 + 1)) 0) 0
          ((encInvGo input 0 none).map fun d => a.encode_symbols.getD d 0),
        0 + (encInvGo input 0 none).length), ?_, ?_⟩
      · simp only [encode_alphabet_slice, horder, reduceIte]
        exact encSliceInvGo_eq _ input 0 none _ 0
          (by simp only [List.length_replicate]; rw [encInvGo_len]; omega)
      · simp only [encInvGo_len]
        omega
    | OrderNormal =>
      refine ⟨(writeAll (List.replicate
          (input.length / 5 * 8 + (input.length % 5 * 2 + 1)) 0) 0
          ((encNormGo input 0 none).map fun d => a.encode_symbols.getD d 0),
        0 + (encNormGo input 0 none).length), ?_, ?_⟩
      · simp only [encode_alphabet_slice, horder, eqFalse_norm_inv, reduceIte]
        exact encSliceNormGo_eq _ input 0 none _ 0
          (by simp only [List.length_replicate]; rw [encNormGo_len]; omega)
      · simp only [encNormGo_len]
        omega

/-- C8 witness: the empty-input case for zbase32 and the slice encoder on
"hello" with the `encoded_len`-sized buffer (9 bytes). -/
theorem C8_encode_never_fails_witness :
    encode_alphabet [] ZBASE32 = some [] ∧
    ∃ r, encode_alphabet_slice (strBytes "hello") (List.replicate 9 0) ZBASE32 =
        some r ∧ r.2 = (8 * (strBytes "hello").length + 4) / 5 :=
  ⟨C8_encode_never_fails.1 ZBASE32,
   C8_encode_never_fails.2 ZBASE32 (strBytes "hello") 9 (by decide)⟩

/-- C4 witness: the corrected formula evaluated at length 7. -/
theorem C4_encoded_len_formula_witness :
    encoded_len 7 = if 7 / 5 * 8 + (7 % 5 * 2 + 1) ≤ USIZE_MAX then
      some (7 / 5 * 8 + (7 % 5 * 2 + 1)) else none :=
  C4_encoded_len_formula 7
